import Mathlib

/-!
Shallow embedding of the character-aggregate consistency and validation
engine of the `wod-character-sheets` repository (Python / FastAPI /
SQLAlchemy), together with theorems settling the frozen claims about it.

The embedding follows the source files:
  `app/constants.py`  — fixed lookup tables and limits;
  `app/utils.py`      — pure helper functions;
  `app/schemas.py`    — the pydantic validation pass over a request;
  `app/routes/vtm.py` — the create / view / update handlers;
  `app/database.py`   — session handling: one commit per request, a
                        session closed without commit is rolled back.

Conventions.
  * Python `int` is `Int`; none of the modelled arithmetic overflows.
  * A Python value that may be absent (field omitted from the JSON body,
    or `None`) is an `Option`; `model_dump(exclude_none=True)` drops
    exactly the `none` fields.
  * Python strings in the collection payloads are the values after
    `sanitize_character_data`, which the handler applies verbatim before
    any logic modelled here; the sanitizer itself (an XSS scrubber) is
    outside the engine boundary.
  * pydantic v1-style validators (`@validator`) are modelled exactly as
    they execute: fields are validated in declaration order and the
    `values` dict passed to a validator holds only the already-validated
    fields, never the field under validation.
  * For the skill-specialty codec a Python `str` is modelled as
    `List Char` (a Python string is a sequence of code points) and a
    Python `dict` as an insertion-ordered association list, which is the
    iteration order Python guarantees.
-/

namespace WoD

/-! ## Blood potency table — `app/constants.py`, `BLOOD_POTENCY_VALUES` -/

/-- One row of the blood-potency table: the derived-value tuple. -/
structure BloodPotencyRow where
  surge : Nat
  mend : Nat
  power_bonus : Nat
  rouse_reroll : Nat
  feeding_penalty : String
  bane_severity : Nat
deriving Repr, DecidableEq

/-- The level-0 row, which `constants.py` stores under key 0 and
`calculate_blood_potency_values` also uses as the `dict.get` default. -/
def bloodPotencyRow0 : BloodPotencyRow :=
  ⟨1, 1, 0, 0, "No penalty", 0⟩

/-- `BLOOD_POTENCY_VALUES` from `app/constants.py`: a dict keyed 0–10,
modelled as a partial map. -/
def BLOOD_POTENCY_VALUES : Nat → Option BloodPotencyRow
  | 0 => some bloodPotencyRow0
  | 1 => some ⟨2, 1, 0, 0, "Animal/Bagged", 1⟩
  | 2 => some ⟨2, 2, 1, 0, "Animal/Bagged", 1⟩
  | 3 => some ⟨3, 2, 1, 1, "Cold blood", 2⟩
  | 4 => some ⟨3, 3, 2, 1, "Cold blood", 2⟩
  | 5 => some ⟨4, 3, 2, 2, "Resonance only", 3⟩
  | 6 => some ⟨4, 3, 3, 2, "Resonance only", 3⟩
  | 7 => some ⟨5, 3, 3, 3, "Slake 1 only", 4⟩
  | 8 => some ⟨5, 4, 4, 3, "Slake 1 only", 4⟩
  | 9 => some ⟨6, 4, 4, 4, "Slake 1 only", 5⟩
  | 10 => some ⟨6, 5, 5, 4, "Slake 0 only", 5⟩
  | _ => none

/-- `calculate_blood_potency_values` from `app/utils.py`:
`bp = max(0, min(10, blood_potency))` then
`BLOOD_POTENCY_VALUES.get(bp, BLOOD_POTENCY_VALUES[0])`. -/
def calculate_blood_potency_values (blood_potency : Int) : BloodPotencyRow :=
  (BLOOD_POTENCY_VALUES (max 0 (min 10 blood_potency)).toNat).getD bloodPotencyRow0

/-! ## Pure helpers — `app/utils.py` -/

/-- `calculate_available_xp` from `app/utils.py`: `max(0, total - spent)`.
Imported by the routes but never called from any of them. -/
def calculate_available_xp (total spent : Int) : Int :=
  max 0 (total - spent)

/-- `validate_xp_spend` from `app/utils.py`:
`amount <= available and amount > 0`. Defined in the source but never
called from any route: no spend request is ever checked against it. -/
def validate_xp_spend (available amount : Int) : Bool :=
  decide (amount ≤ available) && decide (amount > 0)

/-- `validate_damage_total` from `app/utils.py` (also never called from
any route): `(superficial + aggravated) <= max_value`. -/
def validate_damage_total (max_value superficial aggravated : Int) : Bool :=
  decide (superficial + aggravated ≤ max_value)

/-- The clamp described by the spec: inputs below 0 go to 0, above 10 to
10, others are unchanged. -/
def bpClamp (b : Int) : Int :=
  if b < 0 then 0 else if b > 10 then 10 else b

/-- `bloodPotencyDerived` as the spec words it: look the table up at the
clamped level.  Written from the spec, to be compared with
`calculate_blood_potency_values`, which is written from the code. -/
def bloodPotencyDerivedSpec (b : Int) : BloodPotencyRow :=
  (BLOOD_POTENCY_VALUES (bpClamp b).toNat).getD bloodPotencyRow0

/-! ## Pydantic validators — `app/schemas.py`, `VTMCharacterBase`

pydantic runs field validation in field declaration order; a v1-style
`@validator` for a field receives `values`, the dict of the fields
already validated (earlier declarations only, with omitted fields
present as `None`), and runs only when its field was supplied. The
candidate value `v` is therefore never part of `values`. An explicit
JSON `null` for a modelled integer field is identified with omission. -/

/-- `validate_health_damage` from `app/schemas.py`, as it executes for a
candidate damage value `v`: `values` can hold `health_max` always, and
`health_superficial` only when `v` is the aggravated value.
`values.get(key, 0) or 0` turns a missing key and `None` both into 0,
and `if values.get('health_max')`-style truthiness skips the check when
`health_max` is `None` or 0. -/
def validate_health_damage (values_health_max : Option Int)
    (values_health_superficial : Option Int)
    (values_health_aggravated : Option Int) (v : Option Int) :
    Except String (Option Int) :=
  match values_health_max with
  | some health_max =>
      if health_max ≠ 0 then
        let superficial := values_health_superficial.getD 0
        let aggravated := values_health_aggravated.getD 0
        if superficial + aggravated > health_max then
          .error "Total health damage cannot exceed maximum health"
        else .ok v
      else .ok v
  | none => .ok v

/-- `validate_willpower_damage` from `app/schemas.py`: same shape as the
health validator, over the willpower fields. -/
def validate_willpower_damage (values_willpower_max : Option Int)
    (values_willpower_superficial : Option Int)
    (values_willpower_aggravated : Option Int) (v : Option Int) :
    Except String (Option Int) :=
  match values_willpower_max with
  | some willpower_max =>
      if willpower_max ≠ 0 then
        let superficial := values_willpower_superficial.getD 0
        let aggravated := values_willpower_aggravated.getD 0
        if superficial + aggravated > willpower_max then
          .error "Total willpower damage cannot exceed maximum willpower"
        else .ok v
      else .ok v
  | none => .ok v

/-- `validate_exp_available` from `app/schemas.py`: when `exp_total` and
`exp_spent` are both truthy (not `None`, not 0) the supplied value is
auto-corrected to `total - spent`; otherwise the supplied value is kept
verbatim. Both keys are always in `values` by the time `exp_available`
validates, so the membership tests always pass. -/
def validate_exp_available (values_exp_total : Option Int)
    (values_exp_spent : Option Int) (v : Option Int) : Option Int :=
  match values_exp_total, values_exp_spent with
  | some exp_total, some exp_spent =>
      if exp_total ≠ 0 ∧ exp_spent ≠ 0 then
        if v ≠ some (exp_total - exp_spent) then some (exp_total - exp_spent)
        else v
      else v
  | _, _ => v

/-- A pydantic `Field(ge=lo, le=hi)` bound pair, checked only when the
field is supplied. -/
def checkRange (lo hi : Int) (v : Option Int) (msg : String) :
    Except String Unit :=
  match v with
  | none => .ok ()
  | some x => if lo ≤ x ∧ x ≤ hi then .ok () else .error msg

/-- A pydantic `Field(ge=lo)` bound, checked only when the field is
supplied. -/
def checkGe (lo : Int) (v : Option Int) (msg : String) :
    Except String Unit :=
  match v with
  | none => .ok ()
  | some x => if lo ≤ x then .ok () else .error msg

/-- A pydantic `Field(max_length=n)` bound, checked only when the field
is supplied. -/
def checkMaxLen (n : Nat) (v : Option String) (msg : String) :
    Except String Unit :=
  match v with
  | none => .ok ()
  | some s => if s.length ≤ n then .ok () else .error msg

/-- The scalar request fields the claims depend on, before validation;
`none` is an omitted field. The other scalar columns of the sheet are
independent of every modelled rule and are left out. -/
structure ScalarInput where
  name : Option String := none
  health_max : Option Int := none
  health_superficial : Option Int := none
  health_aggravated : Option Int := none
  willpower_max : Option Int := none
  willpower_superficial : Option Int := none
  willpower_aggravated : Option Int := none
  exp_total : Option Int := none
  exp_spent : Option Int := none
  exp_available : Option Int := none
deriving Repr, DecidableEq

/-- The pydantic validation pass of `VTMCharacterBase` over the modelled
fields, in their declaration order (`health_max`, `health_superficial`,
`health_aggravated`, the willpower triple, then `exp_total`,
`exp_spent`, `exp_available`). Bound checks run before each field's
validator; a validator runs only for supplied fields and sees earlier
fields only. pydantic collects every field error while this model stops
at the first, so rejection sets agree and accepted requests produce
identical validated models. -/
def runVTMValidation (p : ScalarInput) : Except String ScalarInput :=
  match checkMaxLen 100 p.name "name: string too long" with
  | .error e => .error e
  | .ok _ =>
  match checkRange 1 10 p.health_max "health_max: out of range" with
  | .error e => .error e
  | .ok _ =>
  match checkRange 0 10 p.health_superficial "health_superficial: out of range" with
  | .error e => .error e
  | .ok _ =>
  match (match p.health_superficial with
         | none => Except.ok none
         | some x => validate_health_damage p.health_max none none (some x)) with
  | .error e => .error e
  | .ok hs =>
  match checkRange 0 10 p.health_aggravated "health_aggravated: out of range" with
  | .error e => .error e
  | .ok _ =>
  match (match p.health_aggravated with
         | none => Except.ok none
         | some x => validate_health_damage p.health_max hs none (some x)) with
  | .error e => .error e
  | .ok ha =>
  match checkRange 1 10 p.willpower_max "willpower_max: out of range" with
  | .error e => .error e
  | .ok _ =>
  match checkRange 0 10 p.willpower_superficial "willpower_superficial: out of range" with
  | .error e => .error e
  | .ok _ =>
  match (match p.willpower_superficial with
         | none => Except.ok none
         | some x => validate_willpower_damage p.willpower_max none none (some x)) with
  | .error e => .error e
  | .ok ws =>
  match checkRange 0 10 p.willpower_aggravated "willpower_aggravated: out of range" with
  | .error e => .error e
  | .ok _ =>
  match (match p.willpower_aggravated with
         | none => Except.ok none
         | some x => validate_willpower_damage p.willpower_max ws none (some x)) with
  | .error e => .error e
  | .ok wa =>
  match checkGe 0 p.exp_total "exp_total: out of range" with
  | .error e => .error e
  | .ok _ =>
  match checkGe 0 p.exp_spent "exp_spent: out of range" with
  | .error e => .error e
  | .ok _ =>
  match checkGe 0 p.exp_available "exp_available: out of range" with
  | .error e => .error e
  | .ok _ =>
  .ok { p with health_superficial := hs, health_aggravated := ha,
               willpower_superficial := ws, willpower_aggravated := wa,
               exp_available := match p.exp_available with
                 | none => none
                 | some x => validate_exp_available p.exp_total p.exp_spent (some x) }

/-! ## Data model — `app/models_new.py` -/

/-- The modelled scalar columns of `VTMCharacter`. -/
structure Character where
  id : Nat
  user_id : Nat
  name : String
  health_max : Int
  health_superficial : Int
  health_aggravated : Int
  willpower_max : Int
  willpower_superficial : Int
  willpower_aggravated : Int
  exp_total : Int
  exp_spent : Int
  exp_available : Int
deriving Repr, DecidableEq

/-- `Touchstone` row: `character_id`, payload columns, `display_order`. -/
structure TouchstoneRow where
  character_id : Nat
  name : String
  description : String
  conviction : String
  display_order : Nat
deriving Repr, DecidableEq

/-- `Background` row. -/
structure BackgroundRow where
  character_id : Nat
  category : String
  type : String
  description : String
  dots : Int
  description_height : Int
  display_order : Nat
deriving Repr, DecidableEq

/-- `Discipline` row. The `powers` column stores `json.dumps` of the
submitted list; the JSON encoding is immaterial to every claim, so the
column is modelled as the list itself. `description` is always set to
the empty string by the handlers. -/
structure DisciplineRow where
  character_id : Nat
  name : String
  level : Int
  powers : List String
  description : String
  display_order : Nat
deriving Repr, DecidableEq

/-- `XPLogEntry` row. The Python column `type` holds `add` or `spend`. -/
structure XPRow where
  character_id : Nat
  date : String
  type : String
  amount : Int
  reason : String
deriving Repr, DecidableEq

/-- The database state the VTM handlers touch. -/
structure DB where
  characters : List Character
  touchstones : List TouchstoneRow
  backgrounds : List BackgroundRow
  disciplines : List DisciplineRow
  xp_log : List XPRow
deriving Repr, DecidableEq

/-! ## Request payloads — the parsed, sanitized JSON bodies -/

/-- A touchstone entry of a payload. `ts_data.get('name')` is falsy for
a missing key, `None` and the empty string alike, so all three are modelled
as `""`; `description` and `conviction` default to `""`. -/
structure TouchstoneItem where
  name : String
  description : String := ""
  conviction : String := ""
deriving Repr, DecidableEq

/-- A background entry of a payload; defaults are the `bg_data.get`
defaults of the handler. -/
structure BackgroundItem where
  category : String := "Background"
  type : String
  description : String := ""
  dots : Int := 0
  description_height : Int := 60
deriving Repr, DecidableEq

/-- A discipline entry of a payload. -/
structure DisciplineItem where
  name : String
  level : Int := 0
  powers : List String := [""]
deriving Repr, DecidableEq

/-- An experience-ledger entry of a payload. The handlers index
`entry_data['date']` (and the other three keys) directly, so a missing
key raises `KeyError`; `none` models a missing key. -/
structure XPItemRaw where
  date : Option String := none
  type : Option String := none
  amount : Option Int := none
  reason : Option String := none
deriving Repr, DecidableEq

/-- The body of an update request: scalar fields plus the four optional
collection keys; `data.pop(key, None)` leaves an absent key as `none`. -/
structure UpdatePayload where
  scalars : ScalarInput := {}
  touchstones : Option (List TouchstoneItem) := none
  backgrounds : Option (List BackgroundItem) := none
  disciplines : Option (List DisciplineItem) := none
  xp_log : Option (List XPItemRaw) := none
deriving Repr, DecidableEq

/-- The body of a create request: `data.pop(key, [])` defaults the
collections to empty lists. -/
structure CreatePayload where
  scalars : ScalarInput := {}
  touchstones : List TouchstoneItem := []
  backgrounds : List BackgroundItem := []
  disciplines : List DisciplineItem := []
  xp_log : List XPItemRaw := []
deriving Repr, DecidableEq

/-- `principal`: `require_auth` returns the session user; privilege is
what `is_storyteller` (`app/utils.py`) grants a storyteller or admin
role. -/
structure Principal where
  id : Nat
  privileged : Bool
deriving Repr, DecidableEq

/-! ## Errors — `app/exceptions.py` -/

/-- The failure outcomes the modelled handlers can produce. The code
has no conflict-on-spend variant anywhere. -/
inductive UpdateError where
  | notFound (character_id : Nat)
  | limitReached (limit : Nat)
  | validationFailed (detail : String)
  | internalError (detail : String)
deriving Repr, DecidableEq

/-- One detail row of an `ErrorResponse`. -/
structure ErrorDetailShape where
  field : String
  message : String
  type : String
deriving Repr, DecidableEq

/-- The structured error body `wod_exception_handler` renders. -/
structure ErrorResponseShape where
  status_code : Nat
  message : String
  details : List ErrorDetailShape
deriving Repr, DecidableEq

/-- `CharacterNotFound` from `app/exceptions.py`: the exact message,
status code 404 and detail row its constructor builds, for an absent
and for an unauthorized character alike. -/
def characterNotFoundResponse (character_id : Nat) : ErrorResponseShape :=
  ⟨404,
    "Character not found or you don\x27t have permission to access it.",
    [⟨"character_id", "Character " ++ toString character_id ++ " not found",
      "not_found"⟩]⟩

/-! ## Aggregate store — `app/routes/vtm.py` -/

/-- `CHARACTER_LIMIT_PER_USER` from `app/constants.py`. -/
def CHARACTER_LIMIT_PER_USER : Nat := 3

/-- The ownership-filtered query every per-character route starts with:
`filter(VTMCharacter.id == character_id, VTMCharacter.user_id ==
user['id']).first()`. -/
def findCharacter (db : DB) (uid cid : Nat) : Option Character :=
  db.characters.find? (fun c => decide (c.id = cid) && decide (c.user_id = uid))

/-- `view_character` (and identically the edit form, the JSON API, the
update and the delete routes): the ownership-filtered query, raising
`CharacterNotFound(character_id)` when it returns nothing. -/
def viewCharacter (db : DB) (uid cid : Nat) : Except UpdateError Character :=
  match findCharacter db uid cid with
  | none => .error (.notFound cid)
  | some c => .ok c

/-- The error body the caller sees for each modelled failure
(`wod_exception_handler` for the `WoDException` subclasses, the 422
handler for pydantic failures, the generic 500 handler otherwise). -/
def renderError : UpdateError → ErrorResponseShape
  | .notFound cid => characterNotFoundResponse cid
  | .limitReached limit =>
      ⟨400,
        "Character limit reached. You can have up to " ++ toString limit ++
          " characters per game line.",
        [⟨"character_count", "Maximum " ++ toString limit ++
          " characters allowed", "limit_exceeded"⟩]⟩
  | .validationFailed detail => ⟨422, "Validation failed", [⟨"", detail, ""⟩]⟩
  | .internalError _ =>
      ⟨500, "An unexpected error occurred. Please try again later.", []⟩

/-! ## Collection synchronization — `update_character`, `create_character` -/

/-- Touchstone rows built from a submitted list: entries with a falsy
name are skipped, and `display_order = i` where `i` is the `enumerate`
index in the submitted list — skipped entries advance it too. -/
def touchstoneRows (cid : Nat) (items : List TouchstoneItem) :
    List TouchstoneRow :=
  items.enum.filterMap (fun p =>
    if p.2.name ≠ "" then
      some ⟨cid, p.2.name, p.2.description, p.2.conviction, p.1⟩
    else none)

/-- Background rows built from a submitted list: the presence check is
on `type`. -/
def backgroundRows (cid : Nat) (items : List BackgroundItem) :
    List BackgroundRow :=
  items.enum.filterMap (fun p =>
    if p.2.type ≠ "" then
      some ⟨cid, p.2.category, p.2.type, p.2.description, p.2.dots,
        p.2.description_height, p.1⟩
    else none)

/-- Discipline rows built from a submitted list: the presence check is
on `name`; `description` is stored as `''`. -/
def disciplineRows (cid : Nat) (items : List DisciplineItem) :
    List DisciplineRow :=
  items.enum.filterMap (fun p =>
    if p.2.name ≠ "" then
      some ⟨cid, p.2.name, p.2.level, p.2.powers, "", p.1⟩
    else none)

/-- XP rows built from a submitted list, reading each entry with
`entry_data['date']` etc.: the rows inserted before any failure, plus
the `KeyError` if one of the entries lacks a required key. -/
def xpRowsPartial (cid : Nat) : List XPItemRaw → List XPRow × Option UpdateError
  | [] => ([], none)
  | e :: rest =>
    match e.date, e.type, e.amount, e.reason with
    | some d, some t, some a, some r =>
        let (rows, err) := xpRowsPartial cid rest
        (⟨cid, d, t, a, r⟩ :: rows, err)
    | _, _, _, _ => ([], some (.internalError "KeyError in xp_log entry"))

/-! ## The update transaction — `update_character` and `get_db`

`update_character` issues deletes and inserts on the session as it runs
and calls `db.commit()` once, at the very end; `get_db`
(`app/database.py`) closes the session when the handler is done, and a
close without a commit rolls the open transaction back. The handler is
therefore modelled as the list of session operations it issues plus its
outcome, and the published state is computed from that trace by the
transaction semantics `execVisible`. -/

/-- One session operation the update handler can issue. -/
inductive Op where
  | setScalars (cid : Nat) (p : ScalarInput)
  | deleteTouchstones (cid : Nat)
  | insertTouchstone (r : TouchstoneRow)
  | deleteBackgrounds (cid : Nat)
  | insertBackground (r : BackgroundRow)
  | deleteDisciplines (cid : Nat)
  | insertDiscipline (r : DisciplineRow)
  | deleteXpLog (cid : Nat)
  | insertXpEntry (r : XPRow)
  | commit
deriving Repr, DecidableEq

/-- `setattr(character, key, value)` for each key of
`model_dump(exclude_none=True)`: omitted fields keep their stored
value. -/
def applyScalars (c : Character) (p : ScalarInput) : Character :=
  { c with
    name := p.name.getD c.name,
    health_max := p.health_max.getD c.health_max,
    health_superficial := p.health_superficial.getD c.health_superficial,
    health_aggravated := p.health_aggravated.getD c.health_aggravated,
    willpower_max := p.willpower_max.getD c.willpower_max,
    willpower_superficial :=
      p.willpower_superficial.getD c.willpower_superficial,
    willpower_aggravated := p.willpower_aggravated.getD c.willpower_aggravated,
    exp_total := p.exp_total.getD c.exp_total,
    exp_spent := p.exp_spent.getD c.exp_spent,
    exp_available := p.exp_available.getD c.exp_available }

/-- Effect of one session operation on the open transaction state. -/
def applyOp (db : DB) : Op → DB
  | .setScalars cid p =>
      { db with characters :=
          db.characters.map (fun c => if c.id = cid then applyScalars c p else c) }
  | .deleteTouchstones cid =>
      { db with touchstones :=
          db.touchstones.filter (fun r => decide (r.character_id ≠ cid)) }
  | .insertTouchstone r => { db with touchstones := db.touchstones ++ [r] }
  | .deleteBackgrounds cid =>
      { db with backgrounds :=
          db.backgrounds.filter (fun r => decide (r.character_id ≠ cid)) }
  | .insertBackground r => { db with backgrounds := db.backgrounds ++ [r] }
  | .deleteDisciplines cid =>
      { db with disciplines :=
          db.disciplines.filter (fun r => decide (r.character_id ≠ cid)) }
  | .insertDiscipline r => { db with disciplines := db.disciplines ++ [r] }
  | .deleteXpLog cid =>
      { db with xp_log :=
          db.xp_log.filter (fun r => decide (r.character_id ≠ cid)) }
  | .insertXpEntry r => { db with xp_log := db.xp_log ++ [r] }
  | .commit => db

/-- Walk a trace keeping the last committed state and the open
transaction state; `commit` publishes the open state. -/
def execVisibleGo (committed current : DB) : List Op → DB
  | [] => committed
  | .commit :: rest => execVisibleGo current current rest
  | op :: rest => execVisibleGo committed (applyOp current op) rest

/-- The state the rest of the system sees after the session closes: the
last committed state; an uncommitted tail is rolled back. -/
def execVisible (db : DB) (ops : List Op) : DB :=
  execVisibleGo db db ops

/-- All operations applied to the open transaction, in order. -/
def applyOps (db : DB) (ops : List Op) : DB :=
  ops.foldl applyOp db

/-- What an operation acts on, for the frame lemmas. -/
inductive OpTarget where
  | scalars
  | touch
  | bg
  | disc
  | xp
  | commitT
deriving Repr, DecidableEq

/-- Classify an operation by what it acts on. -/
def Op.target : Op → OpTarget
  | .setScalars _ _ => .scalars
  | .deleteTouchstones _ => .touch
  | .insertTouchstone _ => .touch
  | .deleteBackgrounds _ => .bg
  | .insertBackground _ => .bg
  | .deleteDisciplines _ => .disc
  | .insertDiscipline _ => .disc
  | .deleteXpLog _ => .xp
  | .insertXpEntry _ => .xp
  | .commit => .commitT

/-- The session operations of the touchstones branch of
`update_character`: absent key, nothing; present key, delete every row
of the aggregate then insert the filtered items in order. -/
def touchstoneOps (cid : Nat) : Option (List TouchstoneItem) → List Op
  | none => []
  | some items =>
      .deleteTouchstones cid :: (touchstoneRows cid items).map .insertTouchstone

/-- The backgrounds branch of `update_character`. -/
def backgroundOps (cid : Nat) : Option (List BackgroundItem) → List Op
  | none => []
  | some items =>
      .deleteBackgrounds cid :: (backgroundRows cid items).map .insertBackground

/-- The disciplines branch of `update_character`. -/
def disciplineOps (cid : Nat) : Option (List DisciplineItem) → List Op
  | none => []
  | some items =>
      .deleteDisciplines cid :: (disciplineRows cid items).map .insertDiscipline

/-- The xp_log branch of `update_character`: the delete plus the inserts
issued before any `KeyError`, and the error if one occurred. No balance
or spend check of any kind appears in this branch. -/
def xpOps (cid : Nat) : Option (List XPItemRaw) → List Op × Option UpdateError
  | none => ([], none)
  | some items =>
      let (rows, err) := xpRowsPartial cid items
      (.deleteXpLog cid :: rows.map .insertXpEntry, err)

/-- `update_character` from `app/routes/vtm.py` as the trace of session
operations it issues plus its outcome: ownership-filtered lookup, then
the pydantic pass, then scalar `setattr`s, then the four collection
branches, then the single `db.commit()`. Every failure path returns
before that commit. -/
def runUpdate (db : DB) (uid cid : Nat) (p : UpdatePayload) :
    List Op × Except UpdateError Unit :=
  match findCharacter db uid cid with
  | none => ([], .error (.notFound cid))
  | some _ =>
    match runVTMValidation p.scalars with
    | .error msg => ([], .error (.validationFailed msg))
    | .ok patch =>
      let ops := Op.setScalars cid patch ::
        (touchstoneOps cid p.touchstones ++ backgroundOps cid p.backgrounds ++
          disciplineOps cid p.disciplines)
      match xpOps cid p.xp_log with
      | (xops, some e) => (ops ++ xops, .error e)
      | (xops, none) => (ops ++ xops ++ [.commit], .ok ())

/-- The caller-visible result of an update request: the published
database on success, the error otherwise (the published database is
then the original one, by `execVisible`). -/
def updateCharacter (db : DB) (uid cid : Nat) (p : UpdatePayload) :
    Except UpdateError DB :=
  match runUpdate db uid cid p with
  | (_, .error e) => .error e
  | (ops, .ok _) => .ok (execVisible db ops)

/-- The `'Unnamed'` fallback of `create_character`:
`if 'name' not in data or not data['name']: data['name'] = 'Unnamed'`
(a missing name and an empty one are both falsy). -/
def nameOrUnnamed (s : ScalarInput) : ScalarInput :=
  { s with name := some (match s.name with
      | none => "Unnamed"
      | some n => if n = "" then "Unnamed" else n) }

/-- `create_character` from `app/routes/vtm.py`: the per-owner count
check runs first and consults only `user['id']` — the privileged flag
of the principal is never read. Then the `'Unnamed'` fallback for a
falsy name, the pydantic pass, and the inserts, committed together;
`newId` stands for the database-assigned primary key, and the new
character starts from the column defaults of `models_new.py`. -/
def createCharacter (db : DB) (user : Principal) (newId : Nat)
    (p : CreatePayload) : Except UpdateError DB :=
  if CHARACTER_LIMIT_PER_USER ≤
      (db.characters.filter (fun c => decide (c.user_id = user.id))).length then
    .error (.limitReached CHARACTER_LIMIT_PER_USER)
  else
    match runVTMValidation (nameOrUnnamed p.scalars) with
    | .error msg => .error (.validationFailed msg)
    | .ok patch =>
      let base : Character :=
        { id := newId, user_id := user.id, name := "",
          health_max := 6, health_superficial := 0, health_aggravated := 0,
          willpower_max := 5, willpower_superficial := 0,
          willpower_aggravated := 0,
          exp_total := 0, exp_spent := 0, exp_available := 0 }
      match xpRowsPartial newId p.xp_log with
      | (_, some e) => .error e
      | (xrows, none) =>
          .ok { db with
            characters := db.characters ++ [applyScalars base patch],
            touchstones := db.touchstones ++ touchstoneRows newId p.touchstones,
            backgrounds := db.backgrounds ++ backgroundRows newId p.backgrounds,
            disciplines := db.disciplines ++ disciplineRows newId p.disciplines,
            xp_log := db.xp_log ++ xrows }

/-! ## Skill-specialty codec — `app/utils.py`

`parse_skill_specialties` and `format_skill_specialties` work on Python
strings and an insertion-ordered dict; they are modelled over
`List Char` (a Python string is a sequence of code points) and an
association list in insertion order. Python `str.strip()` removes
whitespace on both ends; `Char.isWhitespace` stands for Python's
whitespace class, which agrees with it on every ASCII input. -/

/-- Python `s.split(sep)` for a one-character separator: every
occurrence splits, adjacent separators give empty pieces, and the empty
string yields one empty piece. -/
def pySplit (sep : Char) : List Char → List (List Char)
  | [] => [[]]
  | c :: rest =>
    if c = sep then [] :: pySplit sep rest
    else
      match pySplit sep rest with
      | [] => [[c]]
      | piece :: pieces => (c :: piece) :: pieces

/-- Python `s.strip()`: drop whitespace from both ends. -/
def pyStrip (s : List Char) : List Char :=
  ((s.dropWhile Char.isWhitespace).reverse.dropWhile Char.isWhitespace).reverse

/-- Python `sep in s` for one character. -/
def containsChar (c : Char) (s : List Char) : Bool :=
  s.any (fun x => decide (x = c))

/-- Python `s.split(sep, 1)` when `sep` occurs in `s`: the part before
the first occurrence and everything after it. -/
def splitFirst (sep : Char) : List Char → List Char × List Char
  | [] => ([], [])
  | c :: rest =>
    if c = sep then ([], rest)
    else
      let (a, b) := splitFirst sep rest
      (c :: a, b)

/-- Python `sep.join(parts)` for a one-character separator. -/
def pyJoin (sep : Char) : List (List Char) → List Char
  | [] => []
  | [p] => p
  | p :: rest => p ++ sep :: pyJoin sep rest

/-- The dict-insertion step of `parse_skill_specialties`:
`if skill not in result: result[skill] = []` then
`result[skill].append(specialty)`. A new key goes to the end, an
existing key keeps its place and its list grows at the end. -/
def insertSpec (result : List (List Char × List (List Char)))
    (skill specialty : List Char) : List (List Char × List (List Char)) :=
  if result.any (fun kv => decide (kv.1 = skill)) then
    result.map (fun kv =>
      if kv.1 = skill then (kv.1, kv.2 ++ [specialty]) else kv)
  else result ++ [(skill, [specialty])]

/-- The loop body of `parse_skill_specialties`: strip the piece, skip
it unless it contains a colon, split at the first colon and insert. -/
def parseStep (result : List (List Char × List (List Char)))
    (piece : List Char) : List (List Char × List (List Char)) :=
  let spec := pyStrip piece
  if containsChar ':' spec then
    let (skill, specialty) := splitFirst ':' spec
    insertSpec result skill specialty
  else result

/-- `parse_skill_specialties` from `app/utils.py`: falsy input gives the
empty dict; otherwise split on commas, strip each piece, keep the
pieces containing a colon, split each at its first colon and group by
skill in first-appearance order. -/
def parse_skill_specialties (s : List Char) :
    List (List Char × List (List Char)) :=
  if s = [] then []
  else (pySplit ',' s).foldl parseStep []

/-- `format_skill_specialties` from `app/utils.py`: one `skill:spec`
part per specialty, in dict order, joined by commas; the empty dict
gives the empty string. -/
def format_skill_specialties (d : List (List Char × List (List Char))) :
    List Char :=
  if d = [] then []
  else
    pyJoin ','
      (d.flatMap (fun kv => kv.2.map (fun spec => kv.1 ++ ':' :: spec)))

/-- The (skill, specialty) pairs of the dict in emission order, one per
formatted `skill:spec` part. -/
def flatPairs (d : List (List Char × List (List Char))) :
    List (List Char × List Char) :=
  d.flatMap (fun kv => kv.2.map (fun v => (kv.1, v)))

/-- `true` when the first character exists and is whitespace. -/
def headIsWhitespace : List Char → Bool
  | [] => false
  | c :: _ => c.isWhitespace

/-- No leading and no trailing whitespace. -/
def noEdgeWhitespace (s : List Char) : Bool :=
  !(headIsWhitespace s) && !(headIsWhitespace s.reverse)

/-- The domain of the claimed round trip: distinct non-empty skill names
without `:` or `,`, non-empty specialty lists, non-empty specialties
without `,`, and no leading or trailing whitespace anywhere. -/
def wellFormedSpecialties (d : List (List Char × List (List Char))) : Bool :=
  decide (d.map Prod.fst).Nodup &&
    d.all (fun kv =>
      decide (kv.1 ≠ []) && !(containsChar ':' kv.1) &&
        !(containsChar ',' kv.1) && noEdgeWhitespace kv.1 &&
        decide (kv.2 ≠ []) &&
        kv.2.all (fun spec =>
          decide (spec ≠ []) && !(containsChar ',' spec) &&
            noEdgeWhitespace spec))

/-! ## Test fixtures -/

/-- A stored character with the column defaults, used by the concrete
witnesses and counterexamples. -/
def mkCharacter (id uid : Nat) : Character :=
  { id := id, user_id := uid, name := "c",
    health_max := 6, health_superficial := 0, health_aggravated := 0,
    willpower_max := 5, willpower_superficial := 0, willpower_aggravated := 0,
    exp_total := 0, exp_spent := 0, exp_available := 0 }

end WoD

namespace WoD

/-- C9: for every integer level, the code's lookup agrees with the
spec's clamp-then-lookup, and the clamped key always hits the table (the
`dict.get` default branch is dead), so levels in the range return
exactly the tabulated tuple and out-of-range levels return the nearest
boundary row. -/
theorem C9_blood_potency_clamped_lookup (b : Int) :
    calculate_blood_potency_values b = bloodPotencyDerivedSpec b ∧
    BLOOD_POTENCY_VALUES ((bpClamp b).toNat) =
      some (calculate_blood_potency_values b) := by
  have hclamp : max 0 (min 10 b) = bpClamp b := by
    unfold bpClamp; split_ifs <;> omega
  constructor
  · unfold calculate_blood_potency_values bloodPotencyDerivedSpec
    rw [hclamp]
  · unfold calculate_blood_potency_values
    rw [hclamp]
    have hle : (bpClamp b).toNat ≤ 10 := by
      unfold bpClamp; split_ifs <;> omega
    generalize (bpClamp b).toNat = n at hle ⊢
    interval_cases n <;> rfl

end WoD

namespace WoD

/-- The only error `xpRowsPartial` can report is the `KeyError` for a
ledger entry missing a required key. -/
theorem xpRowsPartial_error (cid : Nat) (items : List XPItemRaw) :
    ∀ rows e, xpRowsPartial cid items = (rows, some e) →
      e = .internalError "KeyError in xp_log entry" := by
  induction items with
  | nil => intro rows e h; simp [xpRowsPartial] at h
  | cons it rest ih =>
      intro rows e h
      unfold xpRowsPartial at h
      split at h
      · rcases hrec : xpRowsPartial cid rest with ⟨rows2, err2⟩
        rw [hrec] at h
        injection h with h1 h2
        exact ih rows2 e (by rw [hrec, h2])
      · injection h with h1 h2
        injection h2 with h3
        exact h3.symm

/-! ### Frame lemmas for the transaction semantics -/

theorem applyOp_characters (db : DB) (op : Op) (h : op.target ≠ .scalars) :
    (applyOp db op).characters = db.characters := by
  cases op <;> first | rfl | simp [Op.target] at h

theorem applyOp_touchstones (db : DB) (op : Op) (h : op.target ≠ .touch) :
    (applyOp db op).touchstones = db.touchstones := by
  cases op <;> first | rfl | simp [Op.target] at h

theorem applyOp_backgrounds (db : DB) (op : Op) (h : op.target ≠ .bg) :
    (applyOp db op).backgrounds = db.backgrounds := by
  cases op <;> first | rfl | simp [Op.target] at h

theorem applyOp_disciplines (db : DB) (op : Op) (h : op.target ≠ .disc) :
    (applyOp db op).disciplines = db.disciplines := by
  cases op <;> first | rfl | simp [Op.target] at h

theorem applyOp_xp_log (db : DB) (op : Op) (h : op.target ≠ .xp) :
    (applyOp db op).xp_log = db.xp_log := by
  cases op <;> first | rfl | simp [Op.target] at h

/-- A trace with no commit publishes nothing: the session close rolls
the open transaction back. -/
theorem execVisibleGo_no_commit (ops : List Op) :
    ∀ committed current : DB, (∀ op ∈ ops, op.target ≠ .commitT) →
      execVisibleGo committed current ops = committed := by
  induction ops with
  | nil => intro committed current _; rfl
  | cons op rest ih =>
      intro committed current h
      have hop := h op (List.mem_cons_self _ _)
      have hrest : ∀ o ∈ rest, o.target ≠ .commitT := fun o ho =>
        h o (List.mem_cons_of_mem _ ho)
      cases op <;> first
        | exact ih _ _ hrest
        | (simp [Op.target] at hop)

theorem execVisible_no_commit (db : DB) (ops : List Op)
    (h : ∀ op ∈ ops, op.target ≠ .commitT) : execVisible db ops = db :=
  execVisibleGo_no_commit ops db db h

/-- A commit-free trace followed by one final commit publishes exactly
the result of applying the whole trace. -/
theorem execVisibleGo_commit_last (l : List Op) :
    ∀ committed current : DB, (∀ op ∈ l, op.target ≠ .commitT) →
      execVisibleGo committed current (l ++ [.commit]) = applyOps current l := by
  induction l with
  | nil => intro committed current _; rfl
  | cons op rest ih =>
      intro committed current h
      have hrest : ∀ o ∈ rest, o.target ≠ .commitT := fun o ho =>
        h o (List.mem_cons_of_mem _ ho)
      cases op <;> exact ih _ _ hrest

theorem execVisible_commit_last (db : DB) (l : List Op)
    (h : ∀ op ∈ l, op.target ≠ .commitT) :
    execVisible db (l ++ [.commit]) = applyOps db l :=
  execVisibleGo_commit_last l db db h

theorem applyOps_append (db : DB) (l1 l2 : List Op) :
    applyOps db (l1 ++ l2) = applyOps (applyOps db l1) l2 :=
  List.foldl_append ..

theorem applyOps_nil (db : DB) : applyOps db [] = db := rfl

theorem applyOps_characters (l : List Op) :
    ∀ db : DB, (∀ op ∈ l, op.target ≠ .scalars) →
      (applyOps db l).characters = db.characters := by
  induction l with
  | nil => intro db _; rfl
  | cons op rest ih =>
      intro db h
      have : (applyOps db (op :: rest)) = applyOps (applyOp db op) rest := rfl
      rw [this, ih _ (fun o ho => h o (List.mem_cons_of_mem _ ho)),
        applyOp_characters db op (h op (List.mem_cons_self _ _))]

theorem applyOps_touchstones (l : List Op) :
    ∀ db : DB, (∀ op ∈ l, op.target ≠ .touch) →
      (applyOps db l).touchstones = db.touchstones := by
  induction l with
  | nil => intro db _; rfl
  | cons op rest ih =>
      intro db h
      have : (applyOps db (op :: rest)) = applyOps (applyOp db op) rest := rfl
      rw [this, ih _ (fun o ho => h o (List.mem_cons_of_mem _ ho)),
        applyOp_touchstones db op (h op (List.mem_cons_self _ _))]

theorem applyOps_backgrounds (l : List Op) :
    ∀ db : DB, (∀ op ∈ l, op.target ≠ .bg) →
      (applyOps db l).backgrounds = db.backgrounds := by
  induction l with
  | nil => intro db _; rfl
  | cons op rest ih =>
      intro db h
      have : (applyOps db (op :: rest)) = applyOps (applyOp db op) rest := rfl
      rw [this, ih _ (fun o ho => h o (List.mem_cons_of_mem _ ho)),
        applyOp_backgrounds db op (h op (List.mem_cons_self _ _))]

theorem applyOps_disciplines (l : List Op) :
    ∀ db : DB, (∀ op ∈ l, op.target ≠ .disc) →
      (applyOps db l).disciplines = db.disciplines := by
  induction l with
  | nil => intro db _; rfl
  | cons op rest ih =>
      intro db h
      have : (applyOps db (op :: rest)) = applyOps (applyOp db op) rest := rfl
      rw [this, ih _ (fun o ho => h o (List.mem_cons_of_mem _ ho)),
        applyOp_disciplines db op (h op (List.mem_cons_self _ _))]

theorem applyOps_xp_log (l : List Op) :
    ∀ db : DB, (∀ op ∈ l, op.target ≠ .xp) →
      (applyOps db l).xp_log = db.xp_log := by
  induction l with
  | nil => intro db _; rfl
  | cons op rest ih =>
      intro db h
      have : (applyOps db (op :: rest)) = applyOps (applyOp db op) rest := rfl
      rw [this, ih _ (fun o ho => h o (List.mem_cons_of_mem _ ho)),
        applyOp_xp_log db op (h op (List.mem_cons_self _ _))]

/-! ### Targets of the ops each branch builder emits -/

theorem touchstoneOps_target (cid : Nat) (x : Option (List TouchstoneItem)) :
    ∀ op ∈ touchstoneOps cid x, op.target = .touch := by
  cases x with
  | none => intro op hop; simp [touchstoneOps] at hop
  | some items =>
      intro op hop
      simp only [touchstoneOps, List.mem_cons, List.mem_map] at hop
      rcases hop with rfl | ⟨r, _, rfl⟩ <;> rfl

theorem backgroundOps_target (cid : Nat) (x : Option (List BackgroundItem)) :
    ∀ op ∈ backgroundOps cid x, op.target = .bg := by
  cases x with
  | none => intro op hop; simp [backgroundOps] at hop
  | some items =>
      intro op hop
      simp only [backgroundOps, List.mem_cons, List.mem_map] at hop
      rcases hop with rfl | ⟨r, _, rfl⟩ <;> rfl

theorem disciplineOps_target (cid : Nat) (x : Option (List DisciplineItem)) :
    ∀ op ∈ disciplineOps cid x, op.target = .disc := by
  cases x with
  | none => intro op hop; simp [disciplineOps] at hop
  | some items =>
      intro op hop
      simp only [disciplineOps, List.mem_cons, List.mem_map] at hop
      rcases hop with rfl | ⟨r, _, rfl⟩ <;> rfl

theorem xpOps_target (cid : Nat) (x : Option (List XPItemRaw)) :
    ∀ op ∈ (xpOps cid x).1, op.target = .xp := by
  cases x with
  | none => intro op hop; simp [xpOps] at hop
  | some items =>
      intro op hop
      simp only [xpOps, List.mem_cons, List.mem_map] at hop
      rcases hop with rfl | ⟨r, _, rfl⟩ <;> rfl

/-! ### Effect of each collection branch on its own collection -/

theorem applyOps_insertTouchstones (rows : List TouchstoneRow) :
    ∀ db : DB, (applyOps db (rows.map Op.insertTouchstone)).touchstones =
      db.touchstones ++ rows := by
  induction rows with
  | nil => intro db; simp [applyOps]
  | cons r rest ih =>
      intro db
      have h1 : applyOps db ((r :: rest).map Op.insertTouchstone) =
          applyOps (applyOp db (.insertTouchstone r)) (rest.map Op.insertTouchstone) := rfl
      rw [h1, ih]
      simp [applyOp]

theorem applyOps_insertBackgrounds (rows : List BackgroundRow) :
    ∀ db : DB, (applyOps db (rows.map Op.insertBackground)).backgrounds =
      db.backgrounds ++ rows := by
  induction rows with
  | nil => intro db; simp [applyOps]
  | cons r rest ih =>
      intro db
      have h1 : applyOps db ((r :: rest).map Op.insertBackground) =
          applyOps (applyOp db (.insertBackground r)) (rest.map Op.insertBackground) := rfl
      rw [h1, ih]
      simp [applyOp]

theorem applyOps_insertDisciplines (rows : List DisciplineRow) :
    ∀ db : DB, (applyOps db (rows.map Op.insertDiscipline)).disciplines =
      db.disciplines ++ rows := by
  induction rows with
  | nil => intro db; simp [applyOps]
  | cons r rest ih =>
      intro db
      have h1 : applyOps db ((r :: rest).map Op.insertDiscipline) =
          applyOps (applyOp db (.insertDiscipline r)) (rest.map Op.insertDiscipline) := rfl
      rw [h1, ih]
      simp [applyOp]

theorem applyOps_insertXpEntries (rows : List XPRow) :
    ∀ db : DB, (applyOps db (rows.map Op.insertXpEntry)).xp_log =
      db.xp_log ++ rows := by
  induction rows with
  | nil => intro db; simp [applyOps]
  | cons r rest ih =>
      intro db
      have h1 : applyOps db ((r :: rest).map Op.insertXpEntry) =
          applyOps (applyOp db (.insertXpEntry r)) (rest.map Op.insertXpEntry) := rfl
      rw [h1, ih]
      simp [applyOp]

theorem touchstoneOps_effect (cid : Nat) (items : List TouchstoneItem) (db : DB) :
    (applyOps db (touchstoneOps cid (some items))).touchstones =
      db.touchstones.filter (fun r => decide (r.character_id ≠ cid)) ++
        touchstoneRows cid items := by
  have h1 : applyOps db (touchstoneOps cid (some items)) =
      applyOps (applyOp db (.deleteTouchstones cid))
        ((touchstoneRows cid items).map Op.insertTouchstone) := rfl
  rw [h1, applyOps_insertTouchstones]
  rfl

theorem backgroundOps_effect (cid : Nat) (items : List BackgroundItem) (db : DB) :
    (applyOps db (backgroundOps cid (some items))).backgrounds =
      db.backgrounds.filter (fun r => decide (r.character_id ≠ cid)) ++
        backgroundRows cid items := by
  have h1 : applyOps db (backgroundOps cid (some items)) =
      applyOps (applyOp db (.deleteBackgrounds cid))
        ((backgroundRows cid items).map Op.insertBackground) := rfl
  rw [h1, applyOps_insertBackgrounds]
  rfl

theorem disciplineOps_effect (cid : Nat) (items : List DisciplineItem) (db : DB) :
    (applyOps db (disciplineOps cid (some items))).disciplines =
      db.disciplines.filter (fun r => decide (r.character_id ≠ cid)) ++
        disciplineRows cid items := by
  have h1 : applyOps db (disciplineOps cid (some items)) =
      applyOps (applyOp db (.deleteDisciplines cid))
        ((disciplineRows cid items).map Op.insertDiscipline) := rfl
  rw [h1, applyOps_insertDisciplines]
  rfl

theorem xpOps_effect (cid : Nat) (items : List XPItemRaw) (rows : List XPRow)
    (hrows : xpRowsPartial cid items = (rows, none)) (db : DB) :
    (applyOps db (xpOps cid (some items)).1).xp_log =
      db.xp_log.filter (fun r => decide (r.character_id ≠ cid)) ++ rows := by
  have h1 : (xpOps cid (some items)).1 =
      Op.deleteXpLog cid :: rows.map Op.insertXpEntry := by
    simp [xpOps, hrows]
  rw [h1]
  have h2 : applyOps db (Op.deleteXpLog cid :: rows.map Op.insertXpEntry) =
      applyOps (applyOp db (.deleteXpLog cid)) (rows.map Op.insertXpEntry) := rfl
  rw [h2, applyOps_insertXpEntries]
  rfl

/-! ### Decomposition of a successful update trace -/

theorem runUpdate_ok (db : DB) (uid cid : Nat) (p : UpdatePayload)
    (h : (runUpdate db uid cid p).2 = .ok ()) :
    ∃ c patch xops,
      findCharacter db uid cid = some c ∧
      runVTMValidation p.scalars = .ok patch ∧
      xpOps cid p.xp_log = (xops, none) ∧
      (runUpdate db uid cid p).1 =
        (Op.setScalars cid patch ::
          (touchstoneOps cid p.touchstones ++ backgroundOps cid p.backgrounds ++
            disciplineOps cid p.disciplines)) ++ xops ++ [.commit] := by
  unfold runUpdate at h ⊢
  cases hf : findCharacter db uid cid with
  | none => rw [hf] at h; simp at h
  | some c =>
      rw [hf] at h
      cases hv : runVTMValidation p.scalars with
      | error msg => rw [hv] at h; simp at h
      | ok patch =>
          rw [hv] at h
          rcases hx : xpOps cid p.xp_log with ⟨xops, err⟩
          cases err with
          | some e => rw [hx] at h; simp at h
          | none => exact ⟨c, patch, xops, rfl, rfl, rfl, rfl⟩

theorem update_prefix_no_commit (cid : Nat) (patch : ScalarInput)
    (p : UpdatePayload) (xops : List Op)
    (hx : (xpOps cid p.xp_log).1 = xops) :
    ∀ op ∈ (Op.setScalars cid patch ::
        (touchstoneOps cid p.touchstones ++ backgroundOps cid p.backgrounds ++
          disciplineOps cid p.disciplines)) ++ xops,
      op.target ≠ .commitT := by
  intro op hop
  rcases List.mem_append.mp hop with hop | hop
  · rcases List.mem_cons.mp hop with rfl | hop
    · simp [Op.target]
    · rcases List.mem_append.mp hop with hop | hop
      · rcases List.mem_append.mp hop with hop | hop
        · rw [touchstoneOps_target cid p.touchstones op hop]; simp
        · rw [backgroundOps_target cid p.backgrounds op hop]; simp
      · rw [disciplineOps_target cid p.disciplines op hop]; simp
  · have : op ∈ (xpOps cid p.xp_log).1 := by rw [hx]; exact hop
    rw [xpOps_target cid p.xp_log op this]; simp

/-- Every operation after the scalar write targets one of the four
collections. -/
theorem update_tail_target (cid : Nat) (p : UpdatePayload) (xops : List Op)
    (hx : xpOps cid p.xp_log = (xops, none)) :
    ∀ op ∈ (touchstoneOps cid p.touchstones ++ backgroundOps cid p.backgrounds ++
        disciplineOps cid p.disciplines) ++ xops,
      op.target = .touch ∨ op.target = .bg ∨ op.target = .disc ∨
        op.target = .xp := by
  intro op hop
  rcases List.mem_append.mp hop with hop | hop
  · rcases List.mem_append.mp hop with hop | hop
    · rcases List.mem_append.mp hop with hop | hop
      · exact Or.inl (touchstoneOps_target cid p.touchstones op hop)
      · exact Or.inr (Or.inl (backgroundOps_target cid p.backgrounds op hop))
    · exact Or.inr (Or.inr (Or.inl (disciplineOps_target cid p.disciplines op hop)))
  · have hmem : op ∈ (xpOps cid p.xp_log).1 := by rw [hx]; exact hop
    exact Or.inr (Or.inr (Or.inr (xpOps_target cid p.xp_log op hmem)))

theorem updateTrace_characters (db : DB) (cid : Nat) (patch : ScalarInput)
    (p : UpdatePayload) (xops : List Op)
    (hx : xpOps cid p.xp_log = (xops, none)) :
    (applyOps db ((Op.setScalars cid patch ::
        (touchstoneOps cid p.touchstones ++ backgroundOps cid p.backgrounds ++
          disciplineOps cid p.disciplines)) ++ xops)).characters =
      db.characters.map (fun c => if c.id = cid then applyScalars c patch else c) := by
  have h0 : applyOps db ((Op.setScalars cid patch ::
      (touchstoneOps cid p.touchstones ++ backgroundOps cid p.backgrounds ++
        disciplineOps cid p.disciplines)) ++ xops) =
      applyOps (applyOp db (Op.setScalars cid patch))
        ((touchstoneOps cid p.touchstones ++ backgroundOps cid p.backgrounds ++
          disciplineOps cid p.disciplines) ++ xops) := rfl
  rw [h0, applyOps_characters _ _ (fun op hop => by
    rcases update_tail_target cid p xops hx op hop with h | h | h | h <;>
      rw [h] <;> simp)]
  rfl

theorem updateTrace_touchstones (db : DB) (cid : Nat) (patch : ScalarInput)
    (p : UpdatePayload) (xops : List Op)
    (hx : xpOps cid p.xp_log = (xops, none)) :
    (applyOps db ((Op.setScalars cid patch ::
        (touchstoneOps cid p.touchstones ++ backgroundOps cid p.backgrounds ++
          disciplineOps cid p.disciplines)) ++ xops)).touchstones =
      (match p.touchstones with
        | none => db.touchstones
        | some items =>
            db.touchstones.filter (fun r => decide (r.character_id ≠ cid)) ++
              touchstoneRows cid items) := by
  have h0 : applyOps db ((Op.setScalars cid patch ::
      (touchstoneOps cid p.touchstones ++ backgroundOps cid p.backgrounds ++
        disciplineOps cid p.disciplines)) ++ xops) =
      applyOps (applyOp db (Op.setScalars cid patch))
        ((touchstoneOps cid p.touchstones ++ backgroundOps cid p.backgrounds ++
          disciplineOps cid p.disciplines) ++ xops) := rfl
  rw [h0]
  simp only [applyOps_append]
  have hxp : ∀ op ∈ xops, op.target ≠ OpTarget.touch := fun op hop => by
    have hmem : op ∈ (xpOps cid p.xp_log).1 := by rw [hx]; exact hop
    rw [xpOps_target cid p.xp_log op hmem]; simp
  have hd : ∀ op ∈ disciplineOps cid p.disciplines, op.target ≠ OpTarget.touch :=
    fun op hop => by rw [disciplineOps_target cid p.disciplines op hop]; simp
  have hb : ∀ op ∈ backgroundOps cid p.backgrounds, op.target ≠ OpTarget.touch :=
    fun op hop => by rw [backgroundOps_target cid p.backgrounds op hop]; simp
  rw [applyOps_touchstones _ _ hxp, applyOps_touchstones _ _ hd,
    applyOps_touchstones _ _ hb]
  cases p.touchstones with
  | none => rfl
  | some items => rw [touchstoneOps_effect]; rfl

theorem updateTrace_backgrounds (db : DB) (cid : Nat) (patch : ScalarInput)
    (p : UpdatePayload) (xops : List Op)
    (hx : xpOps cid p.xp_log = (xops, none)) :
    (applyOps db ((Op.setScalars cid patch ::
        (touchstoneOps cid p.touchstones ++ backgroundOps cid p.backgrounds ++
          disciplineOps cid p.disciplines)) ++ xops)).backgrounds =
      (match p.backgrounds with
        | none => db.backgrounds
        | some items =>
            db.backgrounds.filter (fun r => decide (r.character_id ≠ cid)) ++
              backgroundRows cid items) := by
  have h0 : applyOps db ((Op.setScalars cid patch ::
      (touchstoneOps cid p.touchstones ++ backgroundOps cid p.backgrounds ++
        disciplineOps cid p.disciplines)) ++ xops) =
      applyOps (applyOp db (Op.setScalars cid patch))
        ((touchstoneOps cid p.touchstones ++ backgroundOps cid p.backgrounds ++
          disciplineOps cid p.disciplines) ++ xops) := rfl
  rw [h0]
  simp only [applyOps_append]
  have hxp : ∀ op ∈ xops, op.target ≠ OpTarget.bg := fun op hop => by
    have hmem : op ∈ (xpOps cid p.xp_log).1 := by rw [hx]; exact hop
    rw [xpOps_target cid p.xp_log op hmem]; simp
  have hd : ∀ op ∈ disciplineOps cid p.disciplines, op.target ≠ OpTarget.bg :=
    fun op hop => by rw [disciplineOps_target cid p.disciplines op hop]; simp
  have ht : ∀ op ∈ touchstoneOps cid p.touchstones, op.target ≠ OpTarget.bg :=
    fun op hop => by rw [touchstoneOps_target cid p.touchstones op hop]; simp
  rw [applyOps_backgrounds _ _ hxp, applyOps_backgrounds _ _ hd]
  cases p.backgrounds with
  | none =>
      have hnil : backgroundOps cid (none : Option (List BackgroundItem)) = [] := rfl
      rw [hnil, applyOps_nil, applyOps_backgrounds _ _ ht]
      rfl
  | some items =>
      rw [backgroundOps_effect, applyOps_backgrounds _ _ ht]
      rfl

theorem updateTrace_disciplines (db : DB) (cid : Nat) (patch : ScalarInput)
    (p : UpdatePayload) (xops : List Op)
    (hx : xpOps cid p.xp_log = (xops, none)) :
    (applyOps db ((Op.setScalars cid patch ::
        (touchstoneOps cid p.touchstones ++ backgroundOps cid p.backgrounds ++
          disciplineOps cid p.disciplines)) ++ xops)).disciplines =
      (match p.disciplines with
        | none => db.disciplines
        | some items =>
            db.disciplines.filter (fun r => decide (r.character_id ≠ cid)) ++
              disciplineRows cid items) := by
  have h0 : applyOps db ((Op.setScalars cid patch ::
      (touchstoneOps cid p.touchstones ++ backgroundOps cid p.backgrounds ++
        disciplineOps cid p.disciplines)) ++ xops) =
      applyOps (applyOp db (Op.setScalars cid patch))
        ((touchstoneOps cid p.touchstones ++ backgroundOps cid p.backgrounds ++
          disciplineOps cid p.disciplines) ++ xops) := rfl
  rw [h0]
  simp only [applyOps_append]
  have hxp : ∀ op ∈ xops, op.target ≠ OpTarget.disc := fun op hop => by
    have hmem : op ∈ (xpOps cid p.xp_log).1 := by rw [hx]; exact hop
    rw [xpOps_target cid p.xp_log op hmem]; simp
  have ht : ∀ op ∈ touchstoneOps cid p.touchstones, op.target ≠ OpTarget.disc :=
    fun op hop => by rw [touchstoneOps_target cid p.touchstones op hop]; simp
  have hb : ∀ op ∈ backgroundOps cid p.backgrounds, op.target ≠ OpTarget.disc :=
    fun op hop => by rw [backgroundOps_target cid p.backgrounds op hop]; simp
  rw [applyOps_disciplines _ _ hxp]
  cases p.disciplines with
  | none =>
      have hnil : disciplineOps cid (none : Option (List DisciplineItem)) = [] := rfl
      rw [hnil, applyOps_nil, applyOps_disciplines _ _ hb,
        applyOps_disciplines _ _ ht]
      rfl
  | some items =>
      rw [disciplineOps_effect, applyOps_disciplines _ _ hb,
        applyOps_disciplines _ _ ht]
      rfl

theorem updateTrace_xp (db : DB) (cid : Nat) (patch : ScalarInput)
    (p : UpdatePayload) (xops : List Op)
    (hx : xpOps cid p.xp_log = (xops, none)) :
    (match p.xp_log with
      | none =>
          (applyOps db ((Op.setScalars cid patch ::
              (touchstoneOps cid p.touchstones ++
                backgroundOps cid p.backgrounds ++
                disciplineOps cid p.disciplines)) ++ xops)).xp_log = db.xp_log
      | some items => ∃ rows, xpRowsPartial cid items = (rows, none) ∧
          (applyOps db ((Op.setScalars cid patch ::
              (touchstoneOps cid p.touchstones ++
                backgroundOps cid p.backgrounds ++
                disciplineOps cid p.disciplines)) ++ xops)).xp_log =
            db.xp_log.filter (fun r => decide (r.character_id ≠ cid)) ++ rows) := by
  have h0 : applyOps db ((Op.setScalars cid patch ::
      (touchstoneOps cid p.touchstones ++ backgroundOps cid p.backgrounds ++
        disciplineOps cid p.disciplines)) ++ xops) =
      applyOps (applyOp db (Op.setScalars cid patch))
        ((touchstoneOps cid p.touchstones ++ backgroundOps cid p.backgrounds ++
          disciplineOps cid p.disciplines) ++ xops) := rfl
  have ht : ∀ op ∈ touchstoneOps cid p.touchstones, op.target ≠ OpTarget.xp :=
    fun op hop => by rw [touchstoneOps_target cid p.touchstones op hop]; simp
  have hb : ∀ op ∈ backgroundOps cid p.backgrounds, op.target ≠ OpTarget.xp :=
    fun op hop => by rw [backgroundOps_target cid p.backgrounds op hop]; simp
  have hd : ∀ op ∈ disciplineOps cid p.disciplines, op.target ≠ OpTarget.xp :=
    fun op hop => by rw [disciplineOps_target cid p.disciplines op hop]; simp
  cases hpl : p.xp_log with
  | none =>
      rw [hpl] at hx
      have hxe : xops = [] := by
        have := congrArg Prod.fst hx
        simpa [xpOps] using this.symm
      rw [h0, hxe]
      simp only [applyOps_append, List.append_nil]
      rw [applyOps_xp_log _ _ hd, applyOps_xp_log _ _ hb,
        applyOps_xp_log _ _ ht]
      rfl
  | some items =>
      rw [hpl] at hx
      rcases hxr : xpRowsPartial cid items with ⟨rows, err⟩
      have herr : err = none := by
        have := congrArg Prod.snd hx
        simp only [xpOps, hxr] at this
        exact this
      subst herr
      refine ⟨rows, hxr, ?_⟩
      have hxx : xops = (xpOps cid (some items)).1 := by rw [hx]
      rw [h0, hxx]
      simp only [applyOps_append]
      rw [xpOps_effect cid items rows hxr]
      rw [applyOps_xp_log _ _ hd, applyOps_xp_log _ _ hb,
        applyOps_xp_log _ _ ht]
      rfl

/-- What a successful update commits: the found character patched with
the validated scalars, each supplied collection replaced by its filtered
items, each omitted collection untouched. -/
theorem updateCharacter_ok (db : DB) (uid cid : Nat) (p : UpdatePayload)
    (db' : DB) (h : updateCharacter db uid cid p = .ok db') :
    ∃ patch, runVTMValidation p.scalars = .ok patch ∧
      db'.characters =
        db.characters.map (fun c => if c.id = cid then applyScalars c patch else c) ∧
      db'.touchstones = (match p.touchstones with
        | none => db.touchstones
        | some items =>
            db.touchstones.filter (fun r => decide (r.character_id ≠ cid)) ++
              touchstoneRows cid items) ∧
      db'.backgrounds = (match p.backgrounds with
        | none => db.backgrounds
        | some items =>
            db.backgrounds.filter (fun r => decide (r.character_id ≠ cid)) ++
              backgroundRows cid items) ∧
      db'.disciplines = (match p.disciplines with
        | none => db.disciplines
        | some items =>
            db.disciplines.filter (fun r => decide (r.character_id ≠ cid)) ++
              disciplineRows cid items) ∧
      (match p.xp_log with
        | none => db'.xp_log = db.xp_log
        | some items => ∃ rows, xpRowsPartial cid items = (rows, none) ∧
            db'.xp_log =
              db.xp_log.filter (fun r => decide (r.character_id ≠ cid)) ++ rows) := by
  unfold updateCharacter at h
  rcases hr : runUpdate db uid cid p with ⟨ops, res⟩
  rw [hr] at h
  cases res with
  | error e => simp at h
  | ok u =>
      cases u
      have hdb' : execVisible db ops = db' := by
        simpa using h
      obtain ⟨c, patch, xops, hf, hv, hx, hops⟩ :=
        runUpdate_ok db uid cid p (by rw [hr])
      rw [hr] at hops
      simp only [] at hops
      subst hops
      have hnc := update_prefix_no_commit cid patch p xops (by rw [hx])
      rw [← hdb', execVisible_commit_last db _ hnc]
      exact ⟨patch, hv,
        updateTrace_characters db cid patch p xops hx,
        updateTrace_touchstones db cid patch p xops hx,
        updateTrace_backgrounds db cid patch p xops hx,
        updateTrace_disciplines db cid patch p xops hx,
        updateTrace_xp db cid patch p xops hx⟩

end WoD

namespace WoD

/-! ### Claim theorems: atomicity, frame, not-found indistinguishability -/

/-- C6: the update is atomic. Every failure path of `update_character`
— unknown or unauthorized id, a pydantic validation failure, or a fault
while rebuilding a collection (a malformed ledger entry) — returns
before the single `db.commit()` at the end of the handler, and
`get_db` closes the session, rolling the open transaction back; so the
published database after any failing request is exactly the database
before it, scalar fields and all four collections included. -/
theorem C6_update_failure_rolls_back (db : DB) (uid cid : Nat)
    (p : UpdatePayload) (e : UpdateError)
    (h : (runUpdate db uid cid p).2 = .error e) :
    execVisible db (runUpdate db uid cid p).1 = db := by
  unfold runUpdate at h ⊢
  cases hf : findCharacter db uid cid with
  | none => rfl
  | some c =>
      rw [hf] at h
      cases hv : runVTMValidation p.scalars with
      | error msg => rfl
      | ok patch =>
          rw [hv] at h
          rcases hx : xpOps cid p.xp_log with ⟨xops, err⟩
          rw [hx] at h
          cases err with
          | none => simp at h
          | some e2 =>
              exact execVisible_no_commit db _
                (update_prefix_no_commit cid patch p xops (by rw [hx]))

/-- C6 witness: a concrete failing update (a ledger entry with no keys
raises `KeyError` after the ledger delete was already issued) publishes
nothing. -/
theorem C6_witness :
    execVisible ⟨[mkCharacter 1 1], [], [], [], []⟩
        (runUpdate ⟨[mkCharacter 1 1], [], [], [], []⟩ 1 1
          { xp_log := some [{}] }).1 =
      ⟨[mkCharacter 1 1], [], [], [], []⟩ :=
  C6_update_failure_rolls_back ⟨[mkCharacter 1 1], [], [], [], []⟩ 1 1
    { xp_log := some [{}] } (.internalError "KeyError in xp_log entry") rfl

/-- C5: an update whose payload omits a collection key leaves every
stored row of that collection — rows, order and payload fields — of
every aggregate unchanged, for each of the four collections. -/
theorem C5_omitted_collection_untouched (db : DB) (uid cid : Nat)
    (p : UpdatePayload) (db' : DB) (h : updateCharacter db uid cid p = .ok db') :
    (p.touchstones = none → db'.touchstones = db.touchstones) ∧
    (p.backgrounds = none → db'.backgrounds = db.backgrounds) ∧
    (p.disciplines = none → db'.disciplines = db.disciplines) ∧
    (p.xp_log = none → db'.xp_log = db.xp_log) := by
  obtain ⟨patch, _, _, ht, hb, hd, hx⟩ := updateCharacter_ok db uid cid p db' h
  refine ⟨fun hn => ?_, fun hn => ?_, fun hn => ?_, fun hn => ?_⟩
  · rw [hn] at ht; exact ht
  · rw [hn] at hb; exact hb
  · rw [hn] at hd; exact hd
  · rw [hn] at hx; exact hx

/-- C5 witness: an update that supplies only `backgrounds` succeeds and
leaves the stored touchstones (and disciplines and ledger) untouched. -/
theorem C5_witness :
    updateCharacter ⟨[mkCharacter 1 1], [⟨1, "t", "", "", 0⟩], [], [], []⟩ 1 1
        { backgrounds := some [{ type := "Resources", dots := 3 }] } =
      .ok ⟨[mkCharacter 1 1], [⟨1, "t", "", "", 0⟩],
        [⟨1, "Background", "Resources", "", 3, 60, 0⟩], [], []⟩ ∧
    (⟨[mkCharacter 1 1], [⟨1, "t", "", "", 0⟩],
        [⟨1, "Background", "Resources", "", 3, 60, 0⟩], [], []⟩ : DB).touchstones =
      (⟨[mkCharacter 1 1], [⟨1, "t", "", "", 0⟩], [], [], []⟩ : DB).touchstones :=
  ⟨rfl,
    (C5_omitted_collection_untouched
      ⟨[mkCharacter 1 1], [⟨1, "t", "", "", 0⟩], [], [], []⟩ 1 1
      { backgrounds := some [{ type := "Resources", dots := 3 }] }
      ⟨[mkCharacter 1 1], [⟨1, "t", "", "", 0⟩],
        [⟨1, "Background", "Resources", "", 3, 60, 0⟩], [], []⟩ rfl).1 rfl⟩

/-- C8: for a non-privileged principal, an id that exists for nobody
and an id owned by a different user are indistinguishable: the view
route (and the update route identically) produces the same
`CharacterNotFound` outcome — same error value, and the same rendered
response (status 404, same message, same detail shape) — in both
cases, and the update issues no operation. -/
theorem C8_notfound_indistinguishable (db1 db2 : DB) (uid cid : Nat)
    (p : UpdatePayload)
    (h1 : ∀ c ∈ db1.characters, c.id ≠ cid)
    (h2 : ∀ c ∈ db2.characters, c.id = cid → c.user_id ≠ uid) :
    viewCharacter db1 uid cid = .error (.notFound cid) ∧
    viewCharacter db2 uid cid = .error (.notFound cid) ∧
    viewCharacter db1 uid cid = viewCharacter db2 uid cid ∧
    runUpdate db1 uid cid p = ([], .error (.notFound cid)) ∧
    runUpdate db2 uid cid p = ([], .error (.notFound cid)) ∧
    renderError (.notFound cid) = characterNotFoundResponse cid := by
  have hf1 : findCharacter db1 uid cid = none := by
    apply List.find?_eq_none.mpr
    intro c hc
    simp only [Bool.and_eq_true, decide_eq_true_eq, not_and]
    intro hid _
    exact h1 c hc hid
  have hf2 : findCharacter db2 uid cid = none := by
    apply List.find?_eq_none.mpr
    intro c hc
    simp only [Bool.and_eq_true, decide_eq_true_eq, not_and]
    intro hid huid
    exact h2 c hc hid huid
  refine ⟨?_, ?_, ?_, ?_, ?_, rfl⟩
  · unfold viewCharacter; rw [hf1]
  · unfold viewCharacter; rw [hf2]
  · unfold viewCharacter; rw [hf1, hf2]
  · unfold runUpdate; rw [hf1]
  · unfold runUpdate; rw [hf2]

/-- C8 witness: an empty store and a store holding character 5 owned by
user 2 are indistinguishable to user 1 asking for character 5. -/
theorem C8_witness :
    viewCharacter ⟨[], [], [], [], []⟩ 1 5 = .error (.notFound 5) ∧
    viewCharacter ⟨[mkCharacter 5 2], [], [], [], []⟩ 1 5 =
      .error (.notFound 5) ∧
    viewCharacter ⟨[], [], [], [], []⟩ 1 5 =
      viewCharacter ⟨[mkCharacter 5 2], [], [], [], []⟩ 1 5 ∧
    runUpdate ⟨[], [], [], [], []⟩ 1 5 {} = ([], .error (.notFound 5)) ∧
    runUpdate ⟨[mkCharacter 5 2], [], [], [], []⟩ 1 5 {} =
      ([], .error (.notFound 5)) ∧
    renderError (.notFound 5) = characterNotFoundResponse 5 :=
  C8_notfound_indistinguishable ⟨[], [], [], [], []⟩
    ⟨[mkCharacter 5 2], [], [], [], []⟩ 1 5 {}
    (by intro c hc; simp at hc) (by intro c hc; simp at hc; simp [hc, mkCharacter])

end WoD

namespace WoD

/-! ### Claim theorems: the damage rule, the creation cap -/

/-- C1 (code bug): the create of the spec's own scenario —
`health_max=6, health_superficial=4, health_aggravated=3` — is accepted
and committed, even though 4+3 exceeds 6. The pydantic validator
`validate_health_damage` reads both damage values out of `values`,
which never contains the field under validation, so it compares
`4 + 0 > 6` when validating the aggravated field and `0 + 0 > 6` when
validating the superficial one; the sum it documents is never formed.
The never-called checker `validate_damage_total` from `app/utils.py`
would have rejected the pair. -/
theorem C1_damage_scenario_accepted :
    createCharacter ⟨[], [], [], [], []⟩ ⟨7, false⟩ 1
        { scalars :=
            { name := some "Ann", health_max := some 6,
              health_superficial := some 4, health_aggravated := some 3 } } =
      .ok ⟨[
        { id := 1, user_id := 7, name := "Ann",
          health_max := 6, health_superficial := 4, health_aggravated := 3,
          willpower_max := 5, willpower_superficial := 0,
          willpower_aggravated := 0,
          exp_total := 0, exp_spent := 0, exp_available := 0 }],
        [], [], [], []⟩ ∧
    validate_damage_total 6 4 3 = false :=
  ⟨rfl, rfl⟩

/-- C7 counterexample: a privileged principal (id 1, storyteller role)
who already owns three characters gets `LimitReached` from create —
the handler never consults the privilege flag, contradicting the claim
that a privileged create never fails with `LimitReached`. -/
theorem C7_counterexample :
    createCharacter
        ⟨[mkCharacter 1 1, mkCharacter 2 1, mkCharacter 3 1], [], [], [], []⟩
        ⟨1, true⟩ 4 {} =
      .error (.limitReached CHARACTER_LIMIT_PER_USER) :=
  rfl

/-- C7 amended: create fails with `LimitReached` exactly when the
creating principal — privileged or not — already has at least the cap
(3) of characters; the privilege flag plays no part in the outcome. -/
theorem C7_limit_amended (db : DB) (user : Principal) (newId : Nat)
    (p : CreatePayload) :
    createCharacter db user newId p =
        .error (.limitReached CHARACTER_LIMIT_PER_USER) ↔
      CHARACTER_LIMIT_PER_USER ≤
        (db.characters.filter (fun c => decide (c.user_id = user.id))).length := by
  unfold createCharacter
  split_ifs with hcap
  · simp [hcap]
  · constructor
    · intro hc
      exfalso
      cases hrv : runVTMValidation (nameOrUnnamed p.scalars) with
      | error msg => rw [hrv] at hc; simp at hc
      | ok patch =>
          rw [hrv] at hc
          rcases hx2 : xpRowsPartial newId p.xp_log with ⟨xrows, err⟩
          rw [hx2] at hc
          cases err with
          | some e =>
              simp only [Except.error.injEq] at hc
              have he := xpRowsPartial_error newId p.xp_log xrows e hx2
              rw [he] at hc
              exact UpdateError.noConfusion hc
          | none => simp at hc
    · intro hle; exact absurd hle hcap

/-- C7 witness: the amended rule applied at the concrete three-character
store of the counterexample. -/
theorem C7_witness :
    createCharacter
        ⟨[mkCharacter 1 1, mkCharacter 2 1, mkCharacter 3 1], [], [], [], []⟩
        ⟨1, true⟩ 4 {} =
      .error (.limitReached CHARACTER_LIMIT_PER_USER) :=
  (C7_limit_amended
    ⟨[mkCharacter 1 1, mkCharacter 2 1, mkCharacter 3 1], [], [], [], []⟩
    ⟨1, true⟩ 4 {}).mpr (by decide)

/-! ### Counterexamples: experience recomputation, position density,
spend checking -/

/-- C3 counterexample: an update supplying `exp_total=10, exp_spent=0,
exp_available=7` stores 7, not `max(0, 10 − 0) = 10`: the validator
auto-corrects only when total and spent are both truthy, and 0 is
falsy, so the client-supplied value survives. -/
theorem C3_counterexample :
    updateCharacter ⟨[mkCharacter 1 1], [], [], [], []⟩ 1 1
        { scalars :=
            { exp_total := some 10, exp_spent := some 0,
              exp_available := some 7 } } =
      .ok ⟨[
        { mkCharacter 1 1 with
          exp_total := 10, exp_spent := 0, exp_available := 7 }],
        [], [], [], []⟩ ∧
    calculate_available_xp 10 0 = 10 ∧ (7 : Int) ≠ 10 :=
  ⟨rfl, rfl, by decide⟩

/-- C4 counterexample: an update whose backgrounds list is a blank
entry followed by `Resources` stores the one surviving row at
`display_order = 1`, its index in the submitted list — not the dense
position 0 the claim requires. -/
theorem C4_counterexample :
    updateCharacter ⟨[mkCharacter 1 1], [], [], [], []⟩ 1 1
        { backgrounds := some
            [{ type := "" }, { type := "Resources", dots := 3 }] } =
      .ok ⟨[mkCharacter 1 1], [],
        [⟨1, "Background", "Resources", "", 3, 60, 1⟩], [], []⟩ ∧
    (⟨1, "Background", "Resources", "", 3, 60, 1⟩ : BackgroundRow).display_order
      ≠ 0 :=
  ⟨rfl, by decide⟩

/-- C2 counterexample: with 3 XP available (total 8, spent 5, ledger
`add 8, spend 5`), a second spend of 5 — exactly the spec's scenario —
is accepted: the update simply replaces the ledger with the submitted
entries and answers success; no balance check runs and no conflict
error exists. The never-called helper `validate_xp_spend` would have
refused 5 against 3. -/
theorem C2_counterexample :
    updateCharacter
        ⟨[
          { mkCharacter 1 1 with
            exp_total := 8, exp_spent := 5, exp_available := 3 }],
          [], [], [],
          [⟨1, "2025-01-01", "add", 8, "start"⟩,
           ⟨1, "2025-01-02", "spend", 5, "gear"⟩]⟩ 1 1
        { xp_log := some
            [⟨some "2025-01-01", some "add", some 8, some "start"⟩,
             ⟨some "2025-01-02", some "spend", some 5, some "gear"⟩,
             ⟨some "2025-01-03", some "spend", some 5, some "more gear"⟩] } =
      .ok ⟨[
          { mkCharacter 1 1 with
            exp_total := 8, exp_spent := 5, exp_available := 3 }],
          [], [], [],
          [⟨1, "2025-01-01", "add", 8, "start"⟩,
           ⟨1, "2025-01-02", "spend", 5, "gear"⟩,
           ⟨1, "2025-01-03", "spend", 5, "more gear"⟩]⟩ ∧
    validate_xp_spend 3 5 = false :=
  ⟨rfl, rfl⟩

end WoD

namespace WoD

/-! ### Filter lemmas for the full-replace characterizations -/

/-- A `filterMap` that keeps or drops whole elements is a filter
followed by a map. -/
theorem filterMap_if_eq_filter_map {α β : Type} (l : List α) (p : α → Prop)
    [DecidablePred p] (f : α → β) :
    l.filterMap (fun a => if p a then some (f a) else none) =
      (l.filter (fun a => decide (p a))).map f := by
  induction l with
  | nil => rfl
  | cons a rest ih => by_cases h : p a <;> simp [h, ih]

/-- After a full replace, the rows of the aggregate are exactly the new
rows and the rows of other aggregates are exactly the old ones. -/
theorem filter_replaced {α : Type} (old new : List α) (f : α → Nat) (cid : Nat)
    (hnew : ∀ r ∈ new, f r = cid) :
    ((old.filter (fun r => decide (f r ≠ cid)) ++ new).filter
        (fun r => decide (f r = cid)) = new) ∧
    ((old.filter (fun r => decide (f r ≠ cid)) ++ new).filter
        (fun r => decide (f r ≠ cid)) =
      old.filter (fun r => decide (f r ≠ cid))) := by
  constructor
  · rw [List.filter_append]
    have h1 : (old.filter (fun r => decide (f r ≠ cid))).filter
        (fun r => decide (f r = cid)) = [] := by
      rw [List.filter_eq_nil_iff]
      intro a ha
      have := (List.mem_filter.mp ha).2
      simp at this ⊢
      exact this
    have h2 : new.filter (fun r => decide (f r = cid)) = new := by
      rw [List.filter_eq_self]
      intro a ha
      simp [hnew a ha]
    rw [h1, h2, List.nil_append]
  · rw [List.filter_append]
    have h1 : (old.filter (fun r => decide (f r ≠ cid))).filter
        (fun r => decide (f r ≠ cid)) = old.filter (fun r => decide (f r ≠ cid)) := by
      rw [List.filter_eq_self]
      intro a ha
      exact (List.mem_filter.mp ha).2
    have h2 : new.filter (fun r => decide (f r ≠ cid)) = [] := by
      rw [List.filter_eq_nil_iff]
      intro a ha
      simp [hnew a ha]
    rw [h1, h2, List.append_nil]

theorem touchstoneRows_cid (cid : Nat) (items : List TouchstoneItem) :
    ∀ r ∈ touchstoneRows cid items, r.character_id = cid := by
  intro r hr
  unfold touchstoneRows at hr
  rw [List.mem_filterMap] at hr
  obtain ⟨q, _, hq⟩ := hr
  split_ifs at hq
  obtain rfl := Option.some.inj hq
  rfl

theorem backgroundRows_cid (cid : Nat) (items : List BackgroundItem) :
    ∀ r ∈ backgroundRows cid items, r.character_id = cid := by
  intro r hr
  unfold backgroundRows at hr
  rw [List.mem_filterMap] at hr
  obtain ⟨q, _, hq⟩ := hr
  split_ifs at hq
  obtain rfl := Option.some.inj hq
  rfl

theorem disciplineRows_cid (cid : Nat) (items : List DisciplineItem) :
    ∀ r ∈ disciplineRows cid items, r.character_id = cid := by
  intro r hr
  unfold disciplineRows at hr
  rw [List.mem_filterMap] at hr
  obtain ⟨q, _, hq⟩ := hr
  split_ifs at hq
  obtain rfl := Option.some.inj hq
  rfl

theorem xpRowsPartial_cid (cid : Nat) (items : List XPItemRaw) :
    ∀ rows err, xpRowsPartial cid items = (rows, err) →
      ∀ r ∈ rows, r.character_id = cid := by
  induction items with
  | nil =>
      intro rows err h r hr
      unfold xpRowsPartial at h
      injection h with h1 _
      rw [← h1] at hr
      simp at hr
  | cons it rest ih =>
      intro rows err h r hr
      unfold xpRowsPartial at h
      split at h
      · rcases hrec : xpRowsPartial cid rest with ⟨rows2, err2⟩
        rw [hrec] at h
        injection h with h1 h2
        rw [← h1] at hr
        rcases List.mem_cons.mp hr with rfl | hr2
        · rfl
        · exact ih rows2 err2 hrec r hr2
      · injection h with h1 _
        rw [← h1] at hr
        simp at hr

/-- C4 amended: an update that supplies a collection fully replaces it —
the stored rows of the aggregate are exactly the submitted entries that
pass the presence check, in submitted order, and no prior row of that
collection survives — but each surviving row's `position` is its index
in the submitted list (skipped entries advance the counter), not a
dense 0..n−1 renumbering of the survivors. Shown for the touchstones
and backgrounds collections the claim's sources name. -/
theorem C4_full_replace_amended (db : DB) (uid cid : Nat) (p : UpdatePayload)
    (db' : DB) (titems : List TouchstoneItem) (bitems : List BackgroundItem)
    (ht : p.touchstones = some titems) (hb : p.backgrounds = some bitems)
    (h : updateCharacter db uid cid p = .ok db') :
    db'.touchstones.filter (fun r => decide (r.character_id = cid)) =
      touchstoneRows cid titems ∧
    db'.touchstones.filter (fun r => decide (r.character_id ≠ cid)) =
      db.touchstones.filter (fun r => decide (r.character_id ≠ cid)) ∧
    touchstoneRows cid titems =
      (titems.enum.filter (fun q => decide (q.2.name ≠ ""))).map
        (fun q => ⟨cid, q.2.name, q.2.description, q.2.conviction, q.1⟩) ∧
    db'.backgrounds.filter (fun r => decide (r.character_id = cid)) =
      backgroundRows cid bitems ∧
    db'.backgrounds.filter (fun r => decide (r.character_id ≠ cid)) =
      db.backgrounds.filter (fun r => decide (r.character_id ≠ cid)) ∧
    backgroundRows cid bitems =
      (bitems.enum.filter (fun q => decide (q.2.type ≠ ""))).map
        (fun q => ⟨cid, q.2.category, q.2.type, q.2.description, q.2.dots,
          q.2.description_height, q.1⟩) := by
  obtain ⟨patch, _, _, htc, hbc, _, _⟩ := updateCharacter_ok db uid cid p db' h
  rw [ht] at htc
  rw [hb] at hbc
  have hT := filter_replaced db.touchstones (touchstoneRows cid titems)
    (fun r => r.character_id) cid (touchstoneRows_cid cid titems)
  have hB := filter_replaced db.backgrounds (backgroundRows cid bitems)
    (fun r => r.character_id) cid (backgroundRows_cid cid bitems)
  refine ⟨?_, ?_, ?_, ?_, ?_, ?_⟩
  · rw [htc]; exact hT.1
  · rw [htc]; exact hT.2
  · exact filterMap_if_eq_filter_map ..
  · rw [hbc]; exact hB.1
  · rw [hbc]; exact hB.2
  · exact filterMap_if_eq_filter_map ..

/-- C4 witness: the amended rule at the counterexample's input — the
blank first entry is dropped and `Resources` is stored at position 1. -/
theorem C4_witness :
    (⟨[mkCharacter 1 1], [],
        [⟨1, "Background", "Resources", "", 3, 60, 1⟩], [], []⟩ : DB).backgrounds.filter
      (fun r => decide (r.character_id = 1)) =
      backgroundRows 1 [{ type := "" }, { type := "Resources", dots := 3 }] :=
  (C4_full_replace_amended ⟨[mkCharacter 1 1], [], [], [], []⟩ 1 1
    { touchstones := some [], backgrounds := some
        [{ type := "" }, { type := "Resources", dots := 3 }] }
    ⟨[mkCharacter 1 1], [],
      [⟨1, "Background", "Resources", "", 3, 60, 1⟩], [], []⟩
    [] [{ type := "" }, { type := "Resources", dots := 3 }]
    rfl rfl rfl).2.2.2.1

end WoD

namespace WoD

/-- C2 amended: the update path contains no spend check at all. For any
owner-visible character and any submitted ledger whose entries carry
their required keys, the update succeeds — whatever the amounts — and
the submitted entries wholly replace the aggregate's ledger; rows of
other aggregates are untouched. `validate_xp_spend` exists in
`app/utils.py` but no route calls it, and no conflict-on-spend error
exists in the code. -/
theorem C2_spend_unchecked_amended (db : DB) (uid cid : Nat)
    (raws : List XPItemRaw) (rows : List XPRow) (c : Character)
    (hfind : findCharacter db uid cid = some c)
    (hrows : xpRowsPartial cid raws = (rows, none)) :
    ∃ db', updateCharacter db uid cid { xp_log := some raws } = .ok db' ∧
      db'.xp_log.filter (fun r => decide (r.character_id = cid)) = rows ∧
      db'.xp_log.filter (fun r => decide (r.character_id ≠ cid)) =
        db.xp_log.filter (fun r => decide (r.character_id ≠ cid)) := by
  have hxops : xpOps cid (some raws) =
      (Op.deleteXpLog cid :: rows.map Op.insertXpEntry, none) := by
    simp [xpOps, hrows]
  have hsucc : (runUpdate db uid cid { xp_log := some raws }).2 = .ok () := by
    unfold runUpdate
    rw [hfind]
    have hval : runVTMValidation ({ xp_log := some raws } : UpdatePayload).scalars =
        .ok {} := rfl
    rw [hval]
    have hxp2 : xpOps cid ({ xp_log := some raws } : UpdatePayload).xp_log =
        (Op.deleteXpLog cid :: rows.map Op.insertXpEntry, none) := hxops
    rw [hxp2]
  rcases hru : runUpdate db uid cid { xp_log := some raws } with ⟨ops, res⟩
  rw [hru] at hsucc
  simp only at hsucc
  cases res with
  | error e => exact absurd hsucc (by simp)
  | ok u =>
      cases u
      have hok : updateCharacter db uid cid { xp_log := some raws } =
          .ok (execVisible db ops) := by
        unfold updateCharacter
        rw [hru]
      obtain ⟨patch, _, _, _, _, _, hxp⟩ :=
        updateCharacter_ok db uid cid { xp_log := some raws }
          (execVisible db ops) hok
      have hxlog : ({ xp_log := some raws } : UpdatePayload).xp_log =
          some raws := rfl
      rw [hxlog] at hxp
      obtain ⟨rows2, hrows2, heq⟩ := hxp
      rw [hrows] at hrows2
      injection hrows2 with hr2 _
      subst hr2
      have hF := filter_replaced db.xp_log rows (fun r => r.character_id) cid
        (xpRowsPartial_cid cid raws rows none hrows)
      refine ⟨execVisible db ops, hok, ?_, ?_⟩
      · rw [heq]; exact hF.1
      · rw [heq]; exact hF.2

/-- C2 witness: the amended rule at the counterexample's store — the
overdrawing second spend is accepted and the stored ledger equals the
submitted one. -/
theorem C2_witness :
    ∃ db', updateCharacter
        ⟨[
          { mkCharacter 1 1 with
            exp_total := 8, exp_spent := 5, exp_available := 3 }],
          [], [], [],
          [⟨1, "2025-01-01", "add", 8, "start"⟩,
           ⟨1, "2025-01-02", "spend", 5, "gear"⟩]⟩ 1 1
        { xp_log := some
            [⟨some "2025-01-01", some "add", some 8, some "start"⟩,
             ⟨some "2025-01-02", some "spend", some 5, some "gear"⟩,
             ⟨some "2025-01-03", some "spend", some 5, some "more gear"⟩] } =
      .ok db' ∧
      db'.xp_log.filter (fun r => decide (r.character_id = 1)) =
        [⟨1, "2025-01-01", "add", 8, "start"⟩,
         ⟨1, "2025-01-02", "spend", 5, "gear"⟩,
         ⟨1, "2025-01-03", "spend", 5, "more gear"⟩] ∧
      db'.xp_log.filter (fun r => decide (r.character_id ≠ 1)) =
        (⟨[
          { mkCharacter 1 1 with
            exp_total := 8, exp_spent := 5, exp_available := 3 }],
          [], [], [],
          [⟨1, "2025-01-01", "add", 8, "start"⟩,
           ⟨1, "2025-01-02", "spend", 5, "gear"⟩]⟩ : DB).xp_log.filter
          (fun r => decide (r.character_id ≠ 1)) :=
  C2_spend_unchecked_amended
    ⟨[
      { mkCharacter 1 1 with
        exp_total := 8, exp_spent := 5, exp_available := 3 }],
      [], [], [],
      [⟨1, "2025-01-01", "add", 8, "start"⟩,
       ⟨1, "2025-01-02", "spend", 5, "gear"⟩]⟩ 1 1
    [⟨some "2025-01-01", some "add", some 8, some "start"⟩,
     ⟨some "2025-01-02", some "spend", some 5, some "gear"⟩,
     ⟨some "2025-01-03", some "spend", some 5, some "more gear"⟩]
    [⟨1, "2025-01-01", "add", 8, "start"⟩,
     ⟨1, "2025-01-02", "spend", 5, "gear"⟩,
     ⟨1, "2025-01-03", "spend", 5, "more gear"⟩]
    { mkCharacter 1 1 with
      exp_total := 8, exp_spent := 5, exp_available := 3 }
    rfl rfl

end WoD

namespace WoD

/-- With all three experience fields supplied, the validator yields
`total − spent` when total and spent are both nonzero and keeps the
client value otherwise. -/
theorem validate_exp_available_some (tt ss vv : Int) :
    validate_exp_available (some tt) (some ss) (some vv) =
      some (if tt ≠ 0 ∧ ss ≠ 0 then tt - ss else vv) := by
  unfold validate_exp_available
  split_ifs <;> simp_all

/-- C3 amended: after a successful update the stored `exp_available`
equals `exp_total − exp_spent` only when the request supplied all three
experience fields with total and spent both nonzero (0 and `None` are
falsy to the validator, and the difference is not clamped at 0); when
total or spent is omitted or zero the client-supplied value is stored
verbatim, and an omitted `exp_available` keeps the previously stored
value. -/
theorem C3_exp_available_amended (db : DB) (uid cid : Nat)
    (t sp av : Option Int) (db' : DB)
    (h : updateCharacter db uid cid
      { scalars := { exp_total := t, exp_spent := sp, exp_available := av } } =
        .ok db') :
    db'.characters = db.characters.map (fun c =>
      if c.id = cid then
        { c with
          exp_total := t.getD c.exp_total,
          exp_spent := sp.getD c.exp_spent,
          exp_available :=
            match av, t, sp with
            | none, _, _ => c.exp_available
            | some v, some tt, some ss =>
                if tt ≠ 0 ∧ ss ≠ 0 then tt - ss else v
            | some v, _, _ => v }
      else c) := by
  obtain ⟨patch, hv, hc, _, _, _, _⟩ := updateCharacter_ok db uid cid _ db' h
  rw [hc]
  rcases t with _ | tt <;> rcases sp with _ | ss <;> rcases av with _ | vv <;>
    simp only [runVTMValidation, checkMaxLen, checkRange, checkGe] at hv <;>
    try split_ifs at hv
  all_goals
    first
      | exact Except.noConfusion hv
      | (injection hv with hpatch; subst hpatch;
         try simp only [validate_exp_available_some]
         rfl)

/-- C3 witness: supplying total 10, spent 2, available 99 stores
available 8 — the client value is discarded because total and spent
are both nonzero. -/
theorem C3_witness :
    (⟨[
      { mkCharacter 1 1 with
        exp_total := 10, exp_spent := 2, exp_available := 8 }],
      [], [], [], []⟩ : DB).characters =
      [mkCharacter 1 1].map (fun c =>
        if c.id = 1 then
          { c with
            exp_total := (some (10 : Int)).getD c.exp_total,
            exp_spent := (some (2 : Int)).getD c.exp_spent,
            exp_available :=
              match some (99 : Int), some (10 : Int), some (2 : Int) with
              | none, _, _ => c.exp_available
              | some v, some tt, some ss =>
                  if tt ≠ 0 ∧ ss ≠ 0 then tt - ss else v
              | some v, _, _ => v }
        else c) :=
  C3_exp_available_amended ⟨[mkCharacter 1 1], [], [], [], []⟩ 1 1
    (some 10) (some 2) (some 99)
    ⟨[
      { mkCharacter 1 1 with
        exp_total := 10, exp_spent := 2, exp_available := 8 }],
      [], [], [], []⟩ rfl

end WoD

namespace WoD

/-! ### Round trip of the skill-specialty codec -/

theorem pySplit_of_not_mem (sep : Char) (l : List Char) (h : sep ∉ l) :
    pySplit sep l = [l] := by
  induction l with
  | nil => rfl
  | cons c rest ih =>
      have hc : ¬(c = sep) := by
        intro hq; subst hq; exact h (List.mem_cons_self c rest)
      have hrest : sep ∉ rest := fun hr => h (List.mem_cons_of_mem _ hr)
      unfold pySplit
      rw [if_neg hc, ih hrest]

theorem pySplit_append_cons (sep : Char) (l rest : List Char) (h : sep ∉ l) :
    pySplit sep (l ++ sep :: rest) = l :: pySplit sep rest := by
  induction l with
  | nil =>
      show pySplit sep (sep :: rest) = [] :: pySplit sep rest
      conv_lhs => rw [pySplit]
      rw [if_pos rfl]
  | cons c l2 ih =>
      have hc : ¬(c = sep) := by
        intro hq; subst hq; exact h (List.mem_cons_self c l2)
      have hl2 : sep ∉ l2 := fun hr => h (List.mem_cons_of_mem _ hr)
      show pySplit sep (c :: (l2 ++ sep :: rest)) = (c :: l2) :: pySplit sep rest
      conv_lhs => rw [pySplit]
      rw [if_neg hc, ih hl2]

/-- Splitting the joined pieces returns the pieces, when no piece
contains the separator. -/
theorem pySplit_pyJoin (sep : Char) (L : List (List Char)) (hne : L ≠ [])
    (h : ∀ l ∈ L, sep ∉ l) : pySplit sep (pyJoin sep L) = L := by
  induction L with
  | nil => exact absurd rfl hne
  | cons p rest ih =>
      cases rest with
      | nil =>
          show pySplit sep (pyJoin sep [p]) = [p]
          exact pySplit_of_not_mem sep p (h p (List.mem_cons_self p []))
      | cons q rest2 =>
          show pySplit sep (p ++ sep :: pyJoin sep (q :: rest2)) =
            p :: (q :: rest2)
          rw [pySplit_append_cons sep p _ (h p (List.mem_cons_self _ _)),
            ih (by simp) (fun l hl => h l (List.mem_cons_of_mem _ hl))]

theorem dropWhile_head_false (l : List Char)
    (h : headIsWhitespace l = false) :
    l.dropWhile Char.isWhitespace = l := by
  cases l with
  | nil => rfl
  | cons c r =>
      have h2 : c.isWhitespace = false := h
      simp [List.dropWhile_cons, h2]

theorem pyStrip_eq_self (l : List Char) (h : noEdgeWhitespace l = true) :
    pyStrip l = l := by
  unfold noEdgeWhitespace at h
  rw [Bool.and_eq_true, Bool.not_eq_true', Bool.not_eq_true'] at h
  unfold pyStrip
  rw [dropWhile_head_false l h.1, dropWhile_head_false l.reverse h.2,
    List.reverse_reverse]

theorem splitFirst_append (k v : List Char) (h : ':' ∉ k) :
    splitFirst ':' (k ++ ':' :: v) = (k, v) := by
  induction k with
  | nil =>
      show splitFirst ':' (':' :: v) = ([], v)
      unfold splitFirst
      rw [if_pos rfl]
  | cons c k2 ih =>
      have hc : ¬(c = ':') := by
        intro hq; subst hq; exact h (List.mem_cons_self _ _)
      have hk2 : ':' ∉ k2 := fun hr => h (List.mem_cons_of_mem _ hr)
      show splitFirst ':' (c :: (k2 ++ ':' :: v)) = (c :: k2, v)
      unfold splitFirst
      rw [if_neg hc, ih hk2]

theorem containsChar_piece (k v : List Char) :
    containsChar ':' (k ++ ':' :: v) = true := by
  unfold containsChar
  simp

/-- The edges of a `skill:spec` piece carry no whitespace when neither
the skill nor the specialty does. -/
theorem noEdge_piece (k v : List Char) (hk : k ≠ []) (hv : v ≠ [])
    (hkh : headIsWhitespace k = false)
    (hvr : headIsWhitespace v.reverse = false) :
    noEdgeWhitespace (k ++ ':' :: v) = true := by
  unfold noEdgeWhitespace
  rw [Bool.and_eq_true, Bool.not_eq_true', Bool.not_eq_true']
  constructor
  · cases k with
    | nil => exact absurd rfl hk
    | cons c r => exact hkh
  · have hrev : (k ++ ':' :: v).reverse = v.reverse ++ ':' :: k.reverse := by
      simp
    rw [hrev]
    cases hvr2 : v.reverse with
    | nil => exact absurd (by simpa using hvr2) hv
    | cons c r =>
        rw [hvr2] at hvr
        exact hvr

end WoD

namespace WoD

theorem containsChar_eq_false_iff (c : Char) (l : List Char) :
    containsChar c l = false ↔ c ∉ l := by
  unfold containsChar
  rw [List.any_eq_false]
  constructor
  · intro h hc
    exact absurd (by simp) (h c hc)
  · intro h x hx
    simp only [decide_eq_true_eq]
    intro hxc
    exact h (hxc ▸ hx)

theorem comma_not_mem_piece (k v : List Char) (hk : ',' ∉ k) (hv : ',' ∉ v) :
    ',' ∉ k ++ ':' :: v := by
  intro hmem
  rcases List.mem_append.mp hmem with h | h
  · exact hk h
  · rcases List.mem_cons.mp h with h | h
    · exact absurd h (by decide)
    · exact hv h

theorem map_eq_self_of {α : Type} (l : List α) (f : α → α)
    (h : ∀ a ∈ l, f a = a) : l.map f = l := by
  induction l with
  | nil => rfl
  | cons a rest ih =>
      rw [List.map_cons, h a (List.mem_cons_self _ _),
        ih (fun x hx => h x (List.mem_cons_of_mem _ hx))]

theorem foldl_congr_mem {α β : Type} (l : List β) (f g : α → β → α)
    (h : ∀ x ∈ l, ∀ a, f a x = g a x) : ∀ a, l.foldl f a = l.foldl g a := by
  induction l with
  | nil => intro a; rfl
  | cons x rest ih =>
      intro a
      rw [List.foldl_cons, List.foldl_cons, h x (List.mem_cons_self _ _),
        ih (fun y hy => h y (List.mem_cons_of_mem _ hy))]

/-- Unpack the boolean well-formedness of the claim's domain into its
propositional parts. -/
theorem wellFormed_unpack (d : List (List Char × List (List Char)))
    (h : wellFormedSpecialties d = true) :
    (d.map Prod.fst).Nodup ∧
    ∀ kv ∈ d, kv.1 ≠ [] ∧ ':' ∉ kv.1 ∧ ',' ∉ kv.1 ∧
      headIsWhitespace kv.1 = false ∧ headIsWhitespace kv.1.reverse = false ∧
      kv.2 ≠ [] ∧ ∀ spec ∈ kv.2, spec ≠ [] ∧ ',' ∉ spec ∧
        headIsWhitespace spec = false ∧
        headIsWhitespace spec.reverse = false := by
  unfold wellFormedSpecialties at h
  rw [Bool.and_eq_true] at h
  refine ⟨of_decide_eq_true h.1, ?_⟩
  intro kv hkv
  have hk := List.all_eq_true.mp h.2 kv hkv
  simp only [noEdgeWhitespace, Bool.and_eq_true, Bool.not_eq_true',
    decide_eq_true_eq] at hk
  obtain ⟨⟨⟨⟨⟨hk1, hk2⟩, hk3⟩, ⟨hk4, hk5⟩⟩, hk6⟩, hk7⟩ := hk
  refine ⟨hk1, (containsChar_eq_false_iff _ _).mp hk2,
    (containsChar_eq_false_iff _ _).mp hk3, hk4, hk5, hk6, ?_⟩
  intro spec hspec
  have hs := List.all_eq_true.mp hk7 spec hspec
  simp only [Bool.and_eq_true, Bool.not_eq_true', decide_eq_true_eq] at hs
  obtain ⟨⟨hs1, hs2⟩, ⟨hs3, hs4⟩⟩ := hs
  exact ⟨hs1, (containsChar_eq_false_iff _ _).mp hs2, hs3, hs4⟩

theorem mem_flatPairs (d : List (List Char × List (List Char)))
    (pr : List Char × List Char) (h : pr ∈ flatPairs d) :
    ∃ kv ∈ d, kv.1 = pr.1 ∧ pr.2 ∈ kv.2 := by
  unfold flatPairs at h
  rw [List.mem_flatMap] at h
  obtain ⟨kv, hkv, hpr⟩ := h
  rw [List.mem_map] at hpr
  obtain ⟨v, hv, hpr⟩ := hpr
  exact ⟨kv, hkv, by rw [← hpr], by rw [← hpr]; exact hv⟩

theorem flatPairs_cons_ne_nil (k : List Char) (v : List Char)
    (vs : List (List Char)) (d : List (List Char × List (List Char))) :
    flatPairs ((k, v :: vs) :: d) ≠ [] := by
  simp [flatPairs]

theorem pyJoin_ne_nil (sep : Char) (L : List (List Char)) (hL : L ≠ [])
    (h : ∀ p ∈ L, p ≠ []) : pyJoin sep L ≠ [] := by
  cases L with
  | nil => exact absurd rfl hL
  | cons p rest =>
      cases rest with
      | nil => exact h p (List.mem_cons_self _ _)
      | cons q rest2 =>
          show p ++ sep :: pyJoin sep (q :: rest2) ≠ []
          cases p <;> simp

theorem pairs_eq_map_flatPairs (d : List (List Char × List (List Char))) :
    d.flatMap (fun kv => kv.2.map (fun spec => kv.1 ++ ':' :: spec)) =
      (flatPairs d).map (fun pr => pr.1 ++ ':' :: pr.2) := by
  induction d with
  | nil => rfl
  | cons kv d' ih =>
      simp only [flatPairs, List.flatMap_cons, List.map_append,
        List.map_map] at ih ⊢
      rw [ih]
      rfl

/-- On a well-formed `skill:spec` piece, the parse loop body is exactly
the dict insertion. -/
theorem parseStep_piece (acc : List (List Char × List (List Char)))
    (k v : List Char) (hk : k ≠ []) (hv : v ≠ []) (hkc : ':' ∉ k)
    (hkh : headIsWhitespace k = false)
    (hvr : headIsWhitespace v.reverse = false) :
    parseStep acc (k ++ ':' :: v) = insertSpec acc k v := by
  unfold parseStep
  rw [pyStrip_eq_self _ (noEdge_piece k v hk hv hkh hvr)]
  dsimp only
  rw [containsChar_piece]
  rw [if_pos rfl]
  rw [splitFirst_append k v hkc]

end WoD

namespace WoD

/-- Folding further specialties of a skill whose entry is last appends
them to that entry. -/
theorem foldl_insert_last (k : List Char) (vs : List (List Char)) :
    ∀ (pre : List (List Char × List (List Char))) (l : List (List Char)),
      (∀ kv ∈ pre, kv.1 ≠ k) →
      List.foldl (fun a v => insertSpec a k v) (pre ++ [(k, l)]) vs =
        pre ++ [(k, l ++ vs)] := by
  induction vs with
  | nil => intro pre l _; simp
  | cons v vs' ih =>
      intro pre l hpre
      have hstep : insertSpec (pre ++ [(k, l)]) k v = pre ++ [(k, l ++ [v])] := by
        unfold insertSpec
        have hany : (pre ++ [(k, l)]).any (fun kv => decide (kv.1 = k)) = true := by
          simp
        rw [if_pos hany, List.map_append]
        congr 1
        · exact map_eq_self_of pre _ (fun kv hkv => if_neg (hpre kv hkv))
        · simp
      rw [List.foldl_cons, hstep, ih pre (l ++ [v]) hpre, List.append_assoc]
      rfl

/-- Folding the (skill, specialty) pairs of a well-keyed dict into an
accumulator with disjoint keys appends the dict. -/
theorem foldl_insert_flatPairs (d : List (List Char × List (List Char))) :
    ∀ acc, (d.map Prod.fst).Nodup →
      (∀ kv ∈ d, kv.2 ≠ []) →
      (∀ kv ∈ d, ∀ kv' ∈ acc, kv'.1 ≠ kv.1) →
      List.foldl (fun a pr => insertSpec a pr.1 pr.2) acc (flatPairs d) =
        acc ++ d := by
  induction d with
  | nil => intro acc _ _ _; simp [flatPairs]
  | cons kv d' ih =>
      intro acc hnodup hne hdisj
      rcases kv with ⟨k, vs⟩
      cases vs with
      | nil => exact absurd rfl (hne (k, []) (List.mem_cons_self _ _))
      | cons v vs' =>
          have hflat : flatPairs ((k, v :: vs') :: d') =
              ((k, v) :: vs'.map (fun w => (k, w))) ++ flatPairs d' := by
            simp [flatPairs]
          rw [hflat, List.foldl_append, List.foldl_cons]
          have hkacc : ∀ kv' ∈ acc, kv'.1 ≠ k :=
            fun kv' hkv' => hdisj (k, v :: vs') (List.mem_cons_self _ _) kv' hkv'
          have hstep1 : insertSpec acc k v = acc ++ [(k, [v])] := by
            unfold insertSpec
            have hany : acc.any (fun kv => decide (kv.1 = k)) = false := by
              rw [List.any_eq_false]
              intro kv' hkv'
              simp only [decide_eq_true_eq]
              exact hkacc kv' hkv'
            rw [hany]
            rfl
          have hfold2 :
              List.foldl (fun a pr => insertSpec a pr.1 pr.2) (acc ++ [(k, [v])])
                (vs'.map (fun w => (k, w))) = acc ++ [(k, v :: vs')] := by
            rw [List.foldl_map]
            exact foldl_insert_last k vs' acc [v] hkacc
          rw [hstep1, hfold2]
          have hknotin : k ∉ d'.map Prod.fst := by
            have := hnodup
            simp only [List.map_cons, List.nodup_cons] at this
            exact this.1
          have hdisj2 : ∀ kv2 ∈ d', ∀ kv' ∈ acc ++ [(k, v :: vs')],
              kv'.1 ≠ kv2.1 := by
            intro kv2 hkv2 kv' hkv'
            rcases List.mem_append.mp hkv' with h2 | h2
            · exact hdisj kv2 (List.mem_cons_of_mem _ hkv2) kv' h2
            · have : kv' = (k, v :: vs') := by simpa using h2
              rw [this]
              intro hcontra
              apply hknotin
              have hkk : k = kv2.1 := hcontra
              rw [hkk]
              exact List.mem_map_of_mem Prod.fst hkv2
          have hnodup2 : (d'.map Prod.fst).Nodup := by
            have := hnodup
            simp only [List.map_cons, List.nodup_cons] at this
            exact this.2
          rw [ih (acc ++ [(k, v :: vs')]) hnodup2
            (fun kv2 hkv2 => hne kv2 (List.mem_cons_of_mem _ hkv2)) hdisj2]
          simp

/-- C10: the skill-specialty encoding round trips. For every
insertion-ordered dict of distinct non-empty skill names free of `:`
and `,`, mapping to non-empty lists of non-empty specialties free of
`,`, with no leading or trailing whitespace anywhere, parsing the
formatted string returns exactly the dict. -/
theorem C10_specialties_round_trip (d : List (List Char × List (List Char)))
    (h : wellFormedSpecialties d = true) :
    parse_skill_specialties (format_skill_specialties d) = d := by
  obtain ⟨hnodup, hall⟩ := wellFormed_unpack d h
  cases d with
  | nil => rfl
  | cons kv0 d' =>
      obtain ⟨k0, vs0⟩ := kv0
      cases vs0 with
      | nil => exact absurd rfl (hall (k0, []) (List.mem_cons_self _ _)).2.2.2.2.2.1
      | cons v0 vs0' =>
          set d := (k0, v0 :: vs0') :: d' with hd
          have hpieces : ∀ pr ∈ flatPairs d,
              pr.1 ≠ [] ∧ pr.2 ≠ [] ∧ ':' ∉ pr.1 ∧ ',' ∉ pr.1 ∧ ',' ∉ pr.2 ∧
                headIsWhitespace pr.1 = false ∧
                headIsWhitespace pr.2.reverse = false := by
            intro pr hpr
            obtain ⟨kv, hkv, hk1, hk2⟩ := mem_flatPairs d pr hpr
            obtain ⟨w1, w2, w3, w4, _, _, w7⟩ := hall kv hkv
            obtain ⟨s1, s2, _, s4⟩ := w7 pr.2 hk2
            exact ⟨hk1 ▸ w1, s1, hk1 ▸ w2, hk1 ▸ w3, s2, hk1 ▸ w4, s4⟩
          have hflatne : flatPairs d ≠ [] := flatPairs_cons_ne_nil k0 v0 vs0' d'
          have hpne : ∀ p ∈ (flatPairs d).map (fun pr => pr.1 ++ ':' :: pr.2),
              p ≠ [] := by
            intro p hp
            rw [List.mem_map] at hp
            obtain ⟨pr, _, hpr⟩ := hp
            rw [← hpr]
            cases h1 : pr.1 <;> simp
          have hpcomma : ∀ p ∈ (flatPairs d).map (fun pr => pr.1 ++ ':' :: pr.2),
              ',' ∉ p := by
            intro p hp
            rw [List.mem_map] at hp
            obtain ⟨pr, hprm, hpr⟩ := hp
            obtain ⟨_, _, _, c1, c2, _, _⟩ := hpieces pr hprm
            rw [← hpr]
            exact comma_not_mem_piece pr.1 pr.2 c1 c2
          have hmapne : (flatPairs d).map (fun pr => pr.1 ++ ':' :: pr.2) ≠ [] := by
            intro hc
            exact hflatne (List.map_eq_nil_iff.mp hc)
          unfold format_skill_specialties
          rw [if_neg (by simp [hd]), pairs_eq_map_flatPairs]
          unfold parse_skill_specialties
          rw [if_neg (pyJoin_ne_nil ',' _ hmapne hpne)]
          rw [pySplit_pyJoin ',' _ hmapne hpcomma]
          rw [List.foldl_map]
          rw [foldl_congr_mem (flatPairs d)
            (fun a pr => parseStep a (pr.1 ++ ':' :: pr.2))
            (fun a pr => insertSpec a pr.1 pr.2)
            (fun pr hpr a => by
              obtain ⟨p1, p2, p3, _, _, p6, p7⟩ := hpieces pr hpr
              exact parseStep_piece a pr.1 pr.2 p1 p2 p3 p6 p7) []]
          rw [foldl_insert_flatPairs d [] hnodup
            (fun kv hkv => (hall kv hkv).2.2.2.2.2.1) (by simp)]
          simp

/-- C10 witness: the docstring's own example — athletics:running and
academics:history — round trips. -/
theorem C10_witness :
    parse_skill_specialties (format_skill_specialties
      [("athletics".data, ["running".data]),
       ("academics".data, ["history".data])]) =
      [("athletics".data, ["running".data]),
       ("academics".data, ["history".data])] :=
  C10_specialties_round_trip
    [("athletics".data, ["running".data]),
     ("academics".data, ["history".data])]
    (by decide)

end WoD
